import Mathlib

/-!
# A shallow embedding of the DNS codec of `tp_7`

This file embeds the DNS message codec of `src/tp_7/src/lib.rs` and the
response-building logic of `src/tp_7/src/bin/dns_server.rs`, and proves the
specified properties about them.

Conventions of the embedding:

* Byte buffers (`Vec<u8>`, `&[u8]`) are `List Nat` whose elements are the byte
  values.
* Rust `String` domain names are represented by their UTF-8 byte sequences
  (`List Nat`); `str::split('.')` becomes `List.splitOn 46` (the byte `0x2E`
  never occurs inside a multi-byte UTF-8 sequence, so byte-level splitting
  agrees with the source), and `String::from_utf8_lossy`, which the source
  applies to label bytes, is the identity at the byte level.
* Fallible operations return `DecodeOut`: `.ok` for `Ok`, `.err msg` for
  `Err(Error::new(ErrorKind::InvalidData, msg))`, `.panic` for a Rust panic
  (an out-of-bounds index), and `.diverge` when the `loop` of `decode_name`
  fails to finish within an explicit `fuel` bound.  The Rust loop has no such
  bound, so `∀ fuel, … = .diverge` expresses that the source loops forever,
  and a `fuel`-independent non-`.diverge` result is the source's result.
* The explicit `panic!` of `encode_name` is modelled by `Option.none`.
* `rand::random()` (the fresh header id) is taken as a parameter.
-/

/-- Outcome of a fallible decoding step: success, an
`Error::new(ErrorKind::InvalidData, msg)`, a Rust panic, or running out of the
explicit fuel bound on the source's unbounded `loop`. -/
inductive DecodeOut (α : Type) where
  | ok (a : α)
  | err (msg : String)
  | panic
  | diverge
deriving DecidableEq

/-- Propagation of failures, as Rust's `?` operator. -/
def DecodeOut.bind {α β : Type} : DecodeOut α → (α → DecodeOut β) → DecodeOut β
  | .ok a, f => f a
  | .err m, _ => .err m
  | .panic, _ => .panic
  | .diverge, _ => .diverge

/-- `enum DnsRecordType` (lib.rs:8). -/
inductive DnsRecordType where
  | A | NS | CNAME | PTR | MX | AAAA
deriving DecidableEq

/-- The numeric discriminants of `DnsRecordType` (`self.qtype as u16`). -/
def DnsRecordType.toU16 : DnsRecordType → Nat
  | .A => 1
  | .NS => 2
  | .CNAME => 5
  | .PTR => 12
  | .MX => 15
  | .AAAA => 28

/-- `DnsRecordType::from_u16` (lib.rs:18). -/
def DnsRecordType.from_u16 (value : Nat) : Option DnsRecordType :=
  match value with
  | 1 => some .A
  | 2 => some .NS
  | 5 => some .CNAME
  | 12 => some .PTR
  | 15 => some .MX
  | 28 => some .AAAA
  | _ => none

/-- `enum DnsClass` (lib.rs:33). -/
inductive DnsClass where
  | IN
deriving DecidableEq

/-- The numeric discriminant of `DnsClass`. -/
def DnsClass.toU16 : DnsClass → Nat
  | .IN => 1

/-- `DnsClass::from_u16` (lib.rs:38). -/
def DnsClass.from_u16 (value : Nat) : Option DnsClass :=
  match value with
  | 1 => some .IN
  | _ => none

/-- `struct DnsHeader` (lib.rs:48).  Numeric fields are `Nat`s; the `u16`/`u8`
bounds of the Rust types appear as explicit hypotheses where they matter. -/
structure DnsHeader where
  id : Nat
  qr : Bool
  opcode : Nat
  aa : Bool
  tc : Bool
  rd : Bool
  ra : Bool
  z : Nat
  rcode : Nat
  qdcount : Nat
  ancount : Nat
  nscount : Nat
  arcount : Nat
deriving DecidableEq

/-- `write_u16::<BigEndian>`: the two big-endian bytes of a `u16` value. -/
def u16Bytes (n : Nat) : List Nat :=
  [n / 256 % 256, n % 256]

/-- `write_u32::<BigEndian>`: the four big-endian bytes of a `u32` value. -/
def u32Bytes (n : Nat) : List Nat :=
  [n / 16777216 % 256, n / 65536 % 256, n / 256 % 256, n % 256]

/-- `read_u16::<BigEndian>` at an absolute offset.  Every call site in the
source is guarded by an explicit length check, so the default `0` of an
out-of-range read is never observable. -/
def readU16 (data : List Nat) (off : Nat) : Nat :=
  data.getD off 0 * 256 + data.getD (off + 1) 0

/-- `read_u32::<BigEndian>` at an absolute offset (same guard remark). -/
def readU32 (data : List Nat) (off : Nat) : Nat :=
  ((data.getD off 0 * 256 + data.getD (off + 1) 0) * 256 + data.getD (off + 2) 0) * 256
    + data.getD (off + 3) 0

/-- The packed 16-bit flags word built by `DnsHeader::to_bytes` (lib.rs:91-99). -/
def DnsHeader.flagsWord (h : DnsHeader) : Nat :=
  (((((((if h.qr then 1 <<< 15 else 0) |||
    ((h.opcode &&& 0xF) <<< 11)) |||
    (if h.aa then 1 <<< 10 else 0)) |||
    (if h.tc then 1 <<< 9 else 0)) |||
    (if h.rd then 1 <<< 8 else 0)) |||
    (if h.ra then 1 <<< 7 else 0)) |||
    ((h.z &&& 0x7) <<< 4)) |||
    (h.rcode &&& 0xF)

/-- `DnsHeader::to_bytes` (lib.rs:84). -/
def DnsHeader.to_bytes (h : DnsHeader) : List Nat :=
  u16Bytes h.id ++ u16Bytes h.flagsWord ++ u16Bytes h.qdcount ++ u16Bytes h.ancount
    ++ u16Bytes h.nscount ++ u16Bytes h.arcount

/-- `DnsHeader::from_bytes` (lib.rs:112). -/
def DnsHeader.from_bytes (data : List Nat) : DecodeOut DnsHeader :=
  if data.length < 12 then .err "Header trop court"
  else
    let flags := readU16 data 2
    .ok
      { id := readU16 data 0
        qr := flags &&& (1 <<< 15) != 0
        opcode := (flags >>> 11) &&& 0xF
        aa := flags &&& (1 <<< 10) != 0
        tc := flags &&& (1 <<< 9) != 0
        rd := flags &&& (1 <<< 8) != 0
        ra := flags &&& (1 <<< 7) != 0
        z := (flags >>> 4) &&& 0x7
        rcode := flags &&& 0xF
        qdcount := readU16 data 4
        ancount := readU16 data 6
        nscount := readU16 data 8
        arcount := readU16 data 10 }

/-- `struct DnsQuestion` (lib.rs:146); the name is its UTF-8 byte sequence. -/
structure DnsQuestion where
  name : List Nat
  qtype : DnsRecordType
  qclass : DnsClass
deriving DecidableEq

/-- The loop body of `DnsQuestion::encode_name` (lib.rs:166-173) over the
already-split labels: each label becomes a length byte followed by its bytes,
with a terminating zero byte; a label longer than 63 bytes is the `panic!`,
modelled as `none`. -/
def encodeLabels : List (List Nat) → Option (List Nat)
  | [] => some [0]
  | part :: rest =>
    if part.length > 63 then none
    else (encodeLabels rest).map fun tail => part.length :: (part ++ tail)

/-- `DnsQuestion::encode_name` (lib.rs:163): split on `'.'` (byte 46), then
encode the labels. -/
def DnsQuestion.encode_name (name : List Nat) : Option (List Nat) :=
  encodeLabels (name.splitOn 46)

/-- The `loop` of `DnsQuestion::decode_name` (lib.rs:184-216), with an explicit
`fuel` bound on the number of iterations (the source has none).  State:
current `offset`, collected `parts` (`name_parts`), whether a compression
pointer was already followed (`jumped`), and the saved return cursor
(`jump_offset`).  On the zero length byte it returns the dot-joined name and
the final cursor, exactly as the code after the loop does. -/
def decodeNameAux (data : List Nat) :
    Nat → Nat → List (List Nat) → Bool → Nat → DecodeOut (List Nat × Nat)
  | 0, _, _, _, _ => .diverge
  | fuel + 1, offset, parts, jumped, jumpOffset =>
    if data.length ≤ offset then .err "Nom tronqué"
    else
      match data[offset]? with
      | none => .panic
      | some length =>
        if length &&& 0xC0 = 0xC0 then
          let jumpOffset := if jumped then jumpOffset else offset + 2
          match data[offset + 1]? with
          | none => .panic
          | some second =>
            let pointer := ((length &&& 0x3F) <<< 8) ||| second
            decodeNameAux data fuel pointer parts true jumpOffset
        else if length = 0 then
          .ok ([46].intercalate parts, if jumped then jumpOffset else offset + 1)
        else if data.length < offset + 1 + length then .err "Label tronqué"
        else
          decodeNameAux data fuel (offset + 1 + length)
            (parts ++ [(data.drop (offset + 1)).take length]) jumped jumpOffset

/-- `DnsQuestion::decode_name` (lib.rs:179): start with no parts, `jumped :=
false`, and `jump_offset := offset`. -/
def DnsQuestion.decode_name (fuel : Nat) (data : List Nat) (offset : Nat) :
    DecodeOut (List Nat × Nat) :=
  decodeNameAux data fuel offset [] false offset

/-- `DnsQuestion::to_bytes` (lib.rs:226): encoded name, type, class. -/
def DnsQuestion.to_bytes (q : DnsQuestion) : Option (List Nat) :=
  (DnsQuestion.encode_name q.name).map fun enc =>
    enc ++ u16Bytes q.qtype.toU16 ++ u16Bytes q.qclass.toU16

/-- `Ipv4Addr` as its four octets. -/
structure Ipv4Addr where
  a : Nat
  b : Nat
  c : Nat
  d : Nat
deriving DecidableEq

/-- `struct DnsRecord` (lib.rs:244).  The Rust field `class` is called `cls`
here because `class` is a Lean keyword. -/
structure DnsRecord where
  name : List Nat
  rtype : DnsRecordType
  cls : DnsClass
  ttl : Nat
  data : List Nat
deriving DecidableEq

/-- `DnsRecord::new_a_record` (lib.rs:253): `data` is `ip.octets().to_vec()`. -/
def DnsRecord.new_a_record (name : List Nat) (ip : Ipv4Addr) (ttl : Nat) : DnsRecord :=
  ⟨name, .A, .IN, ttl, [ip.a, ip.b, ip.c, ip.d]⟩

/-- `DnsRecord::to_bytes` (lib.rs:264): encoded name, type, class, ttl,
`self.data.len() as u16` (a truncating cast), raw data. -/
def DnsRecord.to_bytes (r : DnsRecord) : Option (List Nat) :=
  (DnsQuestion.encode_name r.name).map fun enc =>
    enc ++ u16Bytes r.rtype.toU16 ++ u16Bytes r.cls.toU16 ++ u32Bytes r.ttl
      ++ u16Bytes r.data.length ++ r.data

/-- `DnsRecord::get_ip` (lib.rs:289). -/
def DnsRecord.get_ip (r : DnsRecord) : Option Ipv4Addr :=
  if r.rtype = .A ∧ r.data.length = 4 then
    some ⟨r.data.getD 0 0, r.data.getD 1 0, r.data.getD 2 0, r.data.getD 3 0⟩
  else none

/-- `struct DnsMessage` (lib.rs:305). -/
structure DnsMessage where
  header : DnsHeader
  questions : List DnsQuestion
  answers : List DnsRecord
  authorities : List DnsRecord
  additionals : List DnsRecord
deriving DecidableEq

/-- `DnsHeader::new` (lib.rs:65); `rand::random()` is the parameter `id`. -/
def DnsHeader.new (id : Nat) : DnsHeader :=
  { id := id, qr := false, opcode := 0, aa := false, tc := false, rd := true,
    ra := false, z := 0, rcode := 0, qdcount := 0, ancount := 0, nscount := 0,
    arcount := 0 }

/-- `DnsMessage::new` (lib.rs:314). -/
def DnsMessage.new (id : Nat) : DnsMessage :=
  ⟨DnsHeader.new id, [], [], [], []⟩

/-- `DnsMessage::new_query` (lib.rs:325). -/
def DnsMessage.new_query (id : Nat) (name : List Nat) (qtype : DnsRecordType) : DnsMessage :=
  let message := DnsMessage.new id
  { message with
    header := { message.header with qdcount := 1 },
    questions := [⟨name, qtype, .IN⟩] }

/-- `DnsMessage::new_response` (lib.rs:333): clone the query, set `qr` and
`ra`, clear the answer/authority/additional sections. -/
def DnsMessage.new_response (query : DnsMessage) : DnsMessage :=
  { query with
    header := { query.header with qr := true, ra := true },
    answers := [], authorities := [], additionals := [] }

/-- The question half of the serialization loop of `DnsMessage::to_bytes`
(lib.rs:351-353): concatenation of the questions' bytes, propagating the
encode-time panic as `none`. -/
def questionsBytes : List DnsQuestion → Option (List Nat)
  | [] => some []
  | q :: qs => do
    let b ← q.to_bytes
    let rest ← questionsBytes qs
    pure (b ++ rest)

/-- The answer half of the serialization loop of `DnsMessage::to_bytes`
(lib.rs:356-358). -/
def recordsBytes : List DnsRecord → Option (List Nat)
  | [] => some []
  | r :: rs => do
    let b ← r.to_bytes
    let rest ← recordsBytes rs
    pure (b ++ rest)

/-- `DnsMessage::to_bytes` (lib.rs:344): header bytes, question bytes, answer
bytes; authority/additional sections are never emitted. -/
def DnsMessage.to_bytes (m : DnsMessage) : Option (List Nat) := do
  let qb ← questionsBytes m.questions
  let ab ← recordsBytes m.answers
  pure (m.header.to_bytes ++ (qb ++ ab))

/-- The question-parsing loop of `DnsMessage::from_bytes` (lib.rs:378-404):
`n` remaining iterations, current `offset`, accumulated questions.  Any
failure is propagated (the loop uses `?` and `return Err(..)`). -/
def parseQuestionsAux (fuel : Nat) (data : List Nat) :
    Nat → Nat → List DnsQuestion → DecodeOut (List DnsQuestion × Nat)
  | 0, offset, acc => .ok (acc, offset)
  | n + 1, offset, acc =>
    if data.length ≤ offset then .err "Question tronquée"
    else
      (DnsQuestion.decode_name fuel data offset).bind fun nameOff =>
        if data.length < nameOff.2 + 4 then .err "Question incomplète"
        else
          let qtypeNum := readU16 data nameOff.2
          let qclassNum := readU16 data (nameOff.2 + 2)
          match DnsRecordType.from_u16 qtypeNum with
          | none => .err "Type de question invalide"
          | some qtype =>
            match DnsClass.from_u16 qclassNum with
            | none => .err "Classe de question invalide"
            | some qclass =>
              parseQuestionsAux fuel data n (nameOff.2 + 4)
                (acc ++ [⟨nameOff.1, qtype, qclass⟩])

/-- The answer-parsing loop of `DnsMessage::from_bytes` (lib.rs:407-442):
insufficient bytes for the record boundary, the fixed fields, or the data
`break` out of the loop keeping the accumulated answers; a name-decoding
failure is propagated by `?`; an unrecognized type or class code is silently
skipped (`if let`), advancing past the record. -/
def parseAnswersAux (fuel : Nat) (data : List Nat) :
    Nat → Nat → List DnsRecord → DecodeOut (List DnsRecord)
  | 0, _, acc => .ok acc
  | n + 1, offset, acc =>
    if data.length ≤ offset then .ok acc
    else
      (DnsQuestion.decode_name fuel data offset).bind fun nameOff =>
        if data.length < nameOff.2 + 10 then .ok acc
        else
          let rtypeNum := readU16 data nameOff.2
          let classNum := readU16 data (nameOff.2 + 2)
          let ttl := readU32 data (nameOff.2 + 4)
          let rdlength := readU16 data (nameOff.2 + 8)
          if data.length < nameOff.2 + 10 + rdlength then .ok acc
          else
            let rdata := (data.drop (nameOff.2 + 10)).take rdlength
            match DnsRecordType.from_u16 rtypeNum, DnsClass.from_u16 classNum with
            | some rtype, some cls =>
              parseAnswersAux fuel data n (nameOff.2 + 10 + rdlength)
                (acc ++ [⟨nameOff.1, rtype, cls, ttl, rdata⟩])
            | _, _ => parseAnswersAux fuel data n (nameOff.2 + 10 + rdlength) acc

/-- `DnsMessage::from_bytes` (lib.rs:367): header, then exactly `qdcount`
questions, then up to `ancount` answers; authority/additional sections are
never parsed. -/
def DnsMessage.from_bytes (fuel : Nat) (data : List Nat) : DecodeOut DnsMessage :=
  if data.length < 12 then .err "Message trop court"
  else
    (DnsHeader.from_bytes data).bind fun header =>
      (parseQuestionsAux fuel data header.qdcount 12 []).bind fun questionsOff =>
        (parseAnswersAux fuel data header.ancount questionsOff.2 []).bind fun answers =>
          .ok ⟨header, questionsOff.1, answers, [], []⟩

/-- ASCII lowercasing of one byte; `str::to_lowercase` restricted to ASCII
(every database key and every queried name in the claims is ASCII). -/
def asciiLower (b : Nat) : Nat :=
  if 65 ≤ b ∧ b ≤ 90 then b + 32 else b

/-- `name.to_lowercase()` on the byte representation of an ASCII name. -/
def strLower (name : List Nat) : List Nat :=
  name.map asciiLower

/-- `struct SimpleDnsDatabase` (lib.rs:456): the `HashMap` is an association
list in which a later `insert` shadows an earlier binding of the same key. -/
structure SimpleDnsDatabase where
  records : List (List Nat × Ipv4Addr)
deriving DecidableEq

/-- `SimpleDnsDatabase::add_record` (lib.rs:476): insert under the lowercased
key. -/
def SimpleDnsDatabase.add_record (db : SimpleDnsDatabase) (name : List Nat)
    (ip : Ipv4Addr) : SimpleDnsDatabase :=
  ⟨(strLower name, ip) :: db.records⟩

/-- `SimpleDnsDatabase::lookup` (lib.rs:480). -/
def SimpleDnsDatabase.lookup (db : SimpleDnsDatabase) (name : List Nat) : Option Ipv4Addr :=
  List.lookup (strLower name) db.records

/-- The UTF-8 bytes of an ASCII string literal. -/
def strBytes (s : String) : List Nat :=
  s.toList.map Char.toNat

/-- `SimpleDnsDatabase::new` (lib.rs:461): the fixed seed table, inserted in
source order. -/
def SimpleDnsDatabase.new : SimpleDnsDatabase :=
  (((((⟨[]⟩ : SimpleDnsDatabase).add_record
    (strBytes "localhost") ⟨127, 0, 0, 1⟩).add_record
    (strBytes "test.local") ⟨192, 168, 1, 100⟩).add_record
    (strBytes "server.local") ⟨192, 168, 1, 1⟩).add_record
    (strBytes "example.com") ⟨93, 184, 216, 34⟩).add_record
    (strBytes "google.com") ⟨8, 8, 8, 8⟩

/-- The per-question body of the loop of `DnsServer::handle_query`
(dns_server.rs:133-168): a resolving type-A question appends an A record with
ttl 300 and bumps `ancount`; a non-resolving type-A question sets `rcode := 3`;
any other type sets `rcode := 4`. -/
def handleQuestion (database : SimpleDnsDatabase) (response : DnsMessage)
    (question : DnsQuestion) : DnsMessage :=
  match question.qtype with
  | .A =>
    match database.lookup question.name with
    | some ip =>
      { response with
        answers := response.answers ++ [DnsRecord.new_a_record question.name ip 300],
        header := { response.header with ancount := response.header.ancount + 1 } }
    | none => { response with header := { response.header with rcode := 3 } }
  | _ => { response with header := { response.header with rcode := 4 } }

/-- The response-building core of `DnsServer::handle_query`
(dns_server.rs:129-168): `new_response`, then the question loop in order.  The
surrounding I/O (socket receive/send, logging) is outside the embedding. -/
def handle_query (database : SimpleDnsDatabase) (query : DnsMessage) : DnsMessage :=
  query.questions.foldl (handleQuestion database) (DnsMessage.new_response query)

/-- A domain name (as bytes) whose dot-separated labels are all non-empty and
at most 63 bytes long. -/
def wellFormedName (name : List Nat) : Prop :=
  ∀ part ∈ name.splitOn 46, part ≠ [] ∧ part.length ≤ 63

/-- The header fields lie inside their declared bit widths (the `u16` fields
are bounded by their Rust type; `opcode`, `z`, `rcode` are the sub-byte
fields). -/
def headerInWidths (h : DnsHeader) : Prop :=
  h.id < 65536 ∧ h.opcode < 16 ∧ h.z < 8 ∧ h.rcode < 16 ∧
    h.qdcount < 65536 ∧ h.ancount < 65536 ∧ h.nscount < 65536 ∧ h.arcount < 65536

/-- The hypotheses of the round-trip claim: counts match the sections, the
names are well formed, the header fields are in their widths, and each `ttl`
fits its Rust type `u32`. -/
def messageWellFormed (m : DnsMessage) : Prop :=
  headerInWidths m.header ∧
  m.header.qdcount = m.questions.length ∧
  m.header.ancount = m.answers.length ∧
  m.header.nscount = 0 ∧
  m.header.arcount = 0 ∧
  (∀ q ∈ m.questions, wellFormedName q.name) ∧
  (∀ r ∈ m.answers, wellFormedName r.name ∧ r.ttl < 4294967296)

/-- `decode_name` diverges at an input: no iteration bound makes the loop
finish. -/
def decodeDiverges (data : List Nat) (offset : Nat) : Prop :=
  ∀ fuel, DnsQuestion.decode_name fuel data offset = .diverge

/-! ## Decidability of the well-formedness predicates -/

instance wellFormedName.dec (name : List Nat) : Decidable (wellFormedName name) := by
  unfold wellFormedName
  infer_instance

instance headerInWidths.dec (h : DnsHeader) : Decidable (headerInWidths h) := by
  unfold headerInWidths
  infer_instance

instance messageWellFormed.dec (m : DnsMessage) : Decidable (messageWellFormed m) := by
  unfold messageWellFormed
  infer_instance

/-! ## Concrete inputs used by the witnesses and counterexamples -/

/-- A header declaring one answer and nothing else. -/
def anOneHdr : DnsHeader := ⟨0, false, 0, false, false, false, false, 0, 0, 0, 1, 0, 0⟩

/-- One answer declared, but its name `[3, 97]` claims a 3-byte label of which
only one byte is present. -/
def truncNameData : List Nat := anOneHdr.to_bytes ++ [3, 97]

/-- One complete answer record whose type code 3 is outside the enumerated
set: name "a", type 3, class 1, ttl 300, no data. -/
def badTypeAnswerData : List Nat :=
  anOneHdr.to_bytes ++ [1, 97, 0] ++ [0, 3] ++ [0, 1] ++ [0, 0, 1, 44] ++ [0, 0]

/-- A header declaring one question and nothing else. -/
def qdOneHdr : DnsHeader := ⟨0, false, 0, false, false, false, false, 0, 0, 1, 0, 0, 0⟩

/-- One question whose type code 3 is outside the enumerated set. -/
def badTypeQuestionData : List Nat :=
  qdOneHdr.to_bytes ++ [1, 97, 0] ++ [0, 3] ++ [0, 1]

/-- The header of the flag-bytes test: qr = 1, rd = 1, rcode = 3, everything
else zero. -/
def hdr9 : DnsHeader := ⟨0, true, 0, false, false, true, false, 0, 3, 0, 0, 0, 0⟩

/-- A small well-formed message with one question and one answer. -/
def w1msg : DnsMessage :=
  ⟨⟨513, false, 0, false, false, true, false, 0, 0, 1, 1, 0, 0⟩,
   [⟨strBytes "ab.c", .A, .IN⟩],
   [⟨strBytes "localhost", .A, .IN, 300, [127, 0, 0, 1]⟩], [], []⟩

/-- The serialization of `w1msg`. -/
def w1bytes : List Nat :=
  [2, 1, 1, 0, 0, 1, 0, 1, 0, 0, 0, 0, 2, 97, 98, 1, 99, 0, 0, 1, 0, 1, 9, 108,
   111, 99, 97, 108, 104, 111, 115, 116, 0, 0, 1, 0, 1, 0, 0, 1, 44, 0, 4, 127, 0, 0, 1]

/-- A query carrying two type-A questions: the first name is absent from the
seed table, the second (uppercase, to exercise the lowercasing) resolves. -/
def twoQuestionQuery : DnsMessage :=
  ⟨⟨9, false, 0, false, false, true, false, 0, 0, 2, 0, 0, 0⟩,
   [⟨strBytes "nope.zz", .A, .IN⟩, ⟨strBytes "LOCALHOST", .A, .IN⟩], [], [], []⟩

/-- A message whose single answer carries 65536 bytes of data: every
hypothesis of the round-trip claim holds, but `data.len() as u16` truncates
the length on the wire. -/
def oversizedMsg : DnsMessage :=
  ⟨anOneHdr, [], [⟨[97], .A, .IN, 0, List.replicate 65536 7⟩], [], []⟩

/-- The serialization of `oversizedMsg`: the on-wire data length is
65536 % 65536 = 0. -/
def oversizedBytes : List Nat :=
  anOneHdr.to_bytes ++
    ([1, 97, 0] ++ [0, 1] ++ [0, 1] ++ [0, 0, 0, 0] ++ [0, 0] ++ List.replicate 65536 7)

/-- What `from_bytes` makes of `oversizedBytes`: the answer comes back with
empty data. -/
def oversizedParsed : DnsMessage :=
  ⟨anOneHdr, [], [⟨[97], .A, .IN, 0, []⟩], [], []⟩

/-! ## Arithmetic and list helpers -/

theorem lor_eq_add (n a b : Nat) (ha : a % 2 ^ n = 0) (hb : b < 2 ^ n) :
    a ||| b = a + b := by
  obtain ⟨c, rfl⟩ : ∃ c, a = 2 ^ n * c := ⟨a / 2 ^ n, by
    conv_lhs => rw [← Nat.div_add_mod a (2 ^ n)]
    omega⟩
  apply Nat.eq_of_testBit_eq
  intro i
  rw [Nat.testBit_lor]
  by_cases hi : i < n
  · have h1 : Nat.testBit (2 ^ n * c) i = false := by
      rw [Nat.mul_comm, ← Nat.shiftLeft_eq, Nat.testBit_shiftLeft]
      simp [Nat.not_le.mpr hi]
    have h2 : Nat.testBit (2 ^ n * c + b) i = Nat.testBit b i := by
      have hmod : (2 ^ n * c + b) % 2 ^ n = b := by
        rw [Nat.mul_add_mod]
        exact Nat.mod_eq_of_lt hb
      have hbit := Nat.testBit_mod_two_pow (2 ^ n * c + b) n i
      rw [hmod] at hbit
      simp [hi] at hbit
      exact hbit.symm
    rw [h1, h2, Bool.false_or]
  · push_neg at hi
    have h1 : Nat.testBit b i = false :=
      Nat.testBit_lt_two_pow (lt_of_lt_of_le hb (Nat.pow_le_pow_right (by norm_num) hi))
    obtain ⟨j, rfl⟩ : ∃ j, i = n + j := ⟨i - n, by omega⟩
    have e1 : (2 ^ n * c + b) >>> n = c := by
      rw [Nat.shiftRight_eq_div_pow, Nat.mul_add_div (Nat.two_pow_pos n),
        Nat.div_eq_of_lt hb, Nat.add_zero]
    have e2 : (2 ^ n * c) >>> n = c := by
      rw [Nat.shiftRight_eq_div_pow, Nat.mul_div_cancel_left _ (Nat.two_pow_pos n)]
    rw [← Nat.testBit_shiftRight, e2, h1,
      ← Nat.testBit_shiftRight (x := 2 ^ n * c + b), e1, Bool.or_false]

theorem and_single_bit (f k : Nat) :
    (f &&& (1 <<< k) != 0) = decide (f / 2 ^ k % 2 = 1) := by
  rw [Nat.shiftLeft_eq, one_mul, Nat.and_two_pow]
  cases ht : f.testBit k with
  | false =>
    rw [Nat.testBit_to_div_mod] at ht
    simp [ht]
  | true =>
    rw [Nat.testBit_to_div_mod] at ht
    simp [ht, (Nat.two_pow_pos k).ne']

theorem boolIf (b : Bool) (x : Nat) : (if b then x else 0) = b.toNat * x := by
  cases b <;> simp

/-- The flags word is the weighted sum of its bit fields. -/
theorem flagsWord_eq (h : DnsHeader) (hop : h.opcode < 16) (hz : h.z < 8)
    (hrc : h.rcode < 16) :
    h.flagsWord = h.qr.toNat * 32768 + h.opcode * 2048 + h.aa.toNat * 1024 +
      h.tc.toNat * 512 + h.rd.toNat * 256 + h.ra.toNat * 128 + h.z * 16 + h.rcode := by
  have hq : h.qr.toNat ≤ 1 := Bool.toNat_le h.qr
  have ha : h.aa.toNat ≤ 1 := Bool.toNat_le h.aa
  have ht : h.tc.toNat ≤ 1 := Bool.toNat_le h.tc
  have hr : h.rd.toNat ≤ 1 := Bool.toNat_le h.rd
  have hra : h.ra.toNat ≤ 1 := Bool.toNat_le h.ra
  unfold DnsHeader.flagsWord
  rw [boolIf h.qr, boolIf h.aa, boolIf h.tc, boolIf h.rd, boolIf h.ra]
  have m1 : h.opcode &&& 0xF = h.opcode := by
    rw [Nat.and_pow_two_sub_one_eq_mod h.opcode 4]
    exact Nat.mod_eq_of_lt hop
  have m2 : h.z &&& 0x7 = h.z := by
    rw [Nat.and_pow_two_sub_one_eq_mod h.z 3]
    exact Nat.mod_eq_of_lt hz
  have m3 : h.rcode &&& 0xF = h.rcode := by
    rw [Nat.and_pow_two_sub_one_eq_mod h.rcode 4]
    exact Nat.mod_eq_of_lt hrc
  rw [m1, m2, m3]
  simp only [Nat.shiftLeft_eq]
  norm_num
  rw [lor_eq_add 15 (h.qr.toNat * 32768) (h.opcode * 2048) (by omega) (by omega)]
  rw [lor_eq_add 11 (h.qr.toNat * 32768 + h.opcode * 2048) (h.aa.toNat * 1024)
    (by omega) (by omega)]
  rw [lor_eq_add 10 (h.qr.toNat * 32768 + h.opcode * 2048 + h.aa.toNat * 1024)
    (h.tc.toNat * 512) (by omega) (by omega)]
  rw [lor_eq_add 9
    (h.qr.toNat * 32768 + h.opcode * 2048 + h.aa.toNat * 1024 + h.tc.toNat * 512)
    (h.rd.toNat * 256) (by omega) (by omega)]
  rw [lor_eq_add 8
    (h.qr.toNat * 32768 + h.opcode * 2048 + h.aa.toNat * 1024 + h.tc.toNat * 512 +
      h.rd.toNat * 256) (h.ra.toNat * 128) (by omega) (by omega)]
  rw [lor_eq_add 7
    (h.qr.toNat * 32768 + h.opcode * 2048 + h.aa.toNat * 1024 + h.tc.toNat * 512 +
      h.rd.toNat * 256 + h.ra.toNat * 128) (h.z * 16) (by omega) (by omega)]
  rw [lor_eq_add 4
    (h.qr.toNat * 32768 + h.opcode * 2048 + h.aa.toNat * 1024 + h.tc.toNat * 512 +
      h.rd.toNat * 256 + h.ra.toNat * 128 + h.z * 16) h.rcode (by omega) (by omega)]

/-- Decoding the flags word recovers every flag field. -/
theorem flags_extract (h : DnsHeader) (hop : h.opcode < 16) (hz : h.z < 8)
    (hrc : h.rcode < 16) :
    h.flagsWord < 65536 ∧
    (h.flagsWord &&& (1 <<< 15) != 0) = h.qr ∧
    ((h.flagsWord >>> 11) &&& 0xF) = h.opcode ∧
    (h.flagsWord &&& (1 <<< 10) != 0) = h.aa ∧
    (h.flagsWord &&& (1 <<< 9) != 0) = h.tc ∧
    (h.flagsWord &&& (1 <<< 8) != 0) = h.rd ∧
    (h.flagsWord &&& (1 <<< 7) != 0) = h.ra ∧
    ((h.flagsWord >>> 4) &&& 0x7) = h.z ∧
    (h.flagsWord &&& 0xF) = h.rcode := by
  have hq : h.qr.toNat ≤ 1 := Bool.toNat_le h.qr
  have ha : h.aa.toNat ≤ 1 := Bool.toNat_le h.aa
  have htc : h.tc.toNat ≤ 1 := Bool.toNat_le h.tc
  have hr : h.rd.toNat ≤ 1 := Bool.toNat_le h.rd
  have hra : h.ra.toNat ≤ 1 := Bool.toNat_le h.ra
  rw [flagsWord_eq h hop hz hrc]
  refine ⟨by omega, ?_, ?_, ?_, ?_, ?_, ?_, ?_, ?_⟩
  · rw [and_single_bit]
    cases hb : h.qr <;> simp [hb] <;> omega
  · rw [Nat.shiftRight_eq_div_pow, Nat.and_pow_two_sub_one_eq_mod _ 4]
    omega
  · rw [and_single_bit]
    cases hb : h.aa <;> simp [hb] <;> omega
  · rw [and_single_bit]
    cases hb : h.tc <;> simp [hb] <;> omega
  · rw [and_single_bit]
    cases hb : h.rd <;> simp [hb] <;> omega
  · rw [and_single_bit]
    cases hb : h.ra <;> simp [hb] <;> omega
  · rw [Nat.shiftRight_eq_div_pow, Nat.and_pow_two_sub_one_eq_mod _ 3]
    omega
  · rw [Nat.and_pow_two_sub_one_eq_mod _ 4]
    omega

theorem getD_append_self (pre : List Nat) (x : Nat) (t : List Nat) :
    (pre ++ x :: t).getD pre.length 0 = x := by
  simp [List.getD, List.getElem?_append_right (Nat.le_refl pre.length)]

theorem readU16_at (pre : List Nat) (x y : Nat) (t : List Nat) :
    readU16 (pre ++ x :: y :: t) pre.length = x * 256 + y := by
  have g1 : (pre ++ x :: y :: t).getD pre.length 0 = x := getD_append_self pre x (y :: t)
  have g2 : (pre ++ x :: y :: t).getD (pre.length + 1) 0 = y := by
    rw [show pre ++ x :: y :: t = (pre ++ [x]) ++ y :: t by simp,
      show pre.length + 1 = (pre ++ [x]).length by simp]
    exact getD_append_self _ _ _
  unfold readU16
  rw [g1, g2]

theorem readU16_u16Bytes (pre : List Nat) (n : Nat) (t : List Nat) :
    readU16 (pre ++ u16Bytes n ++ t) pre.length = n % 65536 := by
  rw [show pre ++ u16Bytes n ++ t = pre ++ (n / 256 % 256) :: (n % 256) :: t by
    simp [u16Bytes]]
  rw [readU16_at]
  omega

theorem readU32_at (pre : List Nat) (x y z w : Nat) (t : List Nat) :
    readU32 (pre ++ x :: y :: z :: w :: t) pre.length = ((x * 256 + y) * 256 + z) * 256 + w := by
  have g1 : (pre ++ x :: y :: z :: w :: t).getD pre.length 0 = x :=
    getD_append_self pre x _
  have g2 : (pre ++ x :: y :: z :: w :: t).getD (pre.length + 1) 0 = y := by
    rw [show pre ++ x :: y :: z :: w :: t = (pre ++ [x]) ++ y :: z :: w :: t by simp,
      show pre.length + 1 = (pre ++ [x]).length by simp]
    exact getD_append_self _ _ _
  have g3 : (pre ++ x :: y :: z :: w :: t).getD (pre.length + 2) 0 = z := by
    rw [show pre ++ x :: y :: z :: w :: t = (pre ++ [x, y]) ++ z :: w :: t by simp,
      show pre.length + 2 = (pre ++ [x, y]).length by simp]
    exact getD_append_self _ _ _
  have g4 : (pre ++ x :: y :: z :: w :: t).getD (pre.length + 3) 0 = w := by
    rw [show pre ++ x :: y :: z :: w :: t = (pre ++ [x, y, z]) ++ w :: t by simp,
      show pre.length + 3 = (pre ++ [x, y, z]).length by simp]
    exact getD_append_self _ _ _
  unfold readU32
  rw [g1, g2, g3, g4]

theorem readU32_u32Bytes (pre : List Nat) (n : Nat) (t : List Nat) :
    readU32 (pre ++ u32Bytes n ++ t) pre.length = n % 4294967296 := by
  rw [show pre ++ u32Bytes n ++ t =
      pre ++ (n / 16777216 % 256) :: (n / 65536 % 256) :: (n / 256 % 256) :: (n % 256) :: t by
    simp [u32Bytes]]
  rw [readU32_at]
  omega

theorem drop_take_middle (pre l rest : List Nat) :
    ((pre ++ l ++ rest).drop pre.length).take l.length = l := by
  rw [List.append_assoc, List.drop_left, List.take_left]

/-! ## Header round trip -/

theorem DnsHeader.to_bytes_length (h : DnsHeader) : h.to_bytes.length = 12 := by
  simp [DnsHeader.to_bytes, u16Bytes]

/-- Parsing the serialized header (plus anything after it) recovers every
header field, provided the fields are inside their declared bit widths. -/
theorem header_round_trip (h : DnsHeader) (rest : List Nat)
    (hw : headerInWidths h) :
    DnsHeader.from_bytes (h.to_bytes ++ rest) = .ok h := by
  obtain ⟨hid, hop, hz, hrc, hqd, han, hns, har⟩ := hw
  obtain ⟨hlt, e15, e11, e10, e9, e8, e7, e4, e0⟩ := flags_extract h hop hz hrc
  have hb : h.to_bytes ++ rest =
      (h.id / 256 % 256) :: (h.id % 256) ::
      (h.flagsWord / 256 % 256) :: (h.flagsWord % 256) ::
      (h.qdcount / 256 % 256) :: (h.qdcount % 256) ::
      (h.ancount / 256 % 256) :: (h.ancount % 256) ::
      (h.nscount / 256 % 256) :: (h.nscount % 256) ::
      (h.arcount / 256 % 256) :: (h.arcount % 256) :: rest := by
    simp [DnsHeader.to_bytes, u16Bytes]
  rw [hb]
  unfold DnsHeader.from_bytes
  rw [if_neg (by simp)]
  simp only [readU16, List.getD_cons_zero, List.getD_cons_succ]
  have hfw : h.flagsWord / 256 % 256 * 256 + h.flagsWord % 256 = h.flagsWord := by omega
  have fid : h.id / 256 % 256 * 256 + h.id % 256 = h.id := by omega
  have fqd : h.qdcount / 256 % 256 * 256 + h.qdcount % 256 = h.qdcount := by omega
  have fan : h.ancount / 256 % 256 * 256 + h.ancount % 256 = h.ancount := by omega
  have fns : h.nscount / 256 % 256 * 256 + h.nscount % 256 = h.nscount := by omega
  have far : h.arcount / 256 % 256 * 256 + h.arcount % 256 = h.arcount := by omega
  rw [hfw, e15, e11, e10, e9, e8, e7, e4, e0, fid, fqd, fan, fns, far]

/-! ## Name codec: decoding an encoded name -/

theorem and192_of_le (n : Nat) (h : n ≤ 63) : n &&& 192 = 0 := by
  interval_cases n <;> rfl

theorem getElem?_append_self (pre : List Nat) (x : Nat) (t : List Nat) :
    (pre ++ x :: t)[pre.length]? = some x := by
  rw [List.getElem?_append_right (Nat.le_refl pre.length)]
  simp

theorem encodeLabels_cons {p : List Nat} {ps : List (List Nat)} {enc : List Nat}
    (h : encodeLabels (p :: ps) = some enc) :
    p.length ≤ 63 ∧ ∃ tail, encodeLabels ps = some tail ∧ enc = p.length :: (p ++ tail) := by
  unfold encodeLabels at h
  by_cases hp : p.length > 63
  · simp [hp] at h
  · simp only [hp, if_false, Option.map_eq_some'] at h
    obtain ⟨tail, ht, he⟩ := h
    exact ⟨by omega, tail, ht, he.symm⟩

theorem encodeLabels_length {ls : List (List Nat)} {enc : List Nat}
    (h : encodeLabels ls = some enc) : ls.length < enc.length := by
  induction ls generalizing enc with
  | nil =>
    unfold encodeLabels at h
    obtain rfl := Option.some.inj h
    simp
  | cons p ps ih =>
    obtain ⟨-, tail, ht, rfl⟩ := encodeLabels_cons h
    have := ih ht
    simp
    omega

theorem decodeNameAux_encode (ls : List (List Nat)) :
    ∀ (fuel : Nat) (pre enc rest : List Nat) (parts : List (List Nat))
      (jumped : Bool) (jo : Nat),
      encodeLabels ls = some enc →
      (∀ l ∈ ls, l ≠ []) →
      ls.length < fuel →
      decodeNameAux (pre ++ enc ++ rest) fuel pre.length parts jumped jo =
        .ok ([46].intercalate (parts ++ ls),
          if jumped then jo else pre.length + enc.length) := by
  induction ls with
  | nil =>
    intro fuel pre enc rest parts jumped jo henc hne hfuel
    obtain rfl : [0] = enc := Option.some.inj henc
    obtain ⟨f, rfl⟩ : ∃ f, fuel = f + 1 := ⟨fuel - 1, by omega⟩
    have hget : (pre ++ [0] ++ rest)[pre.length]? = some 0 := by
      rw [show pre ++ [0] ++ rest = pre ++ 0 :: rest by simp]
      exact getElem?_append_self pre 0 rest
    have hlen : ¬((pre ++ [0] ++ rest).length ≤ pre.length) := by
      simp
    simp only [decodeNameAux, if_neg hlen, hget]
    norm_num
  | cons p ps ih =>
    intro fuel pre enc rest parts jumped jo henc hne hfuel
    obtain ⟨hp63, tail, htail, rfl⟩ := encodeLabels_cons henc
    obtain ⟨f, rfl⟩ : ∃ f, fuel = f + 1 := ⟨fuel - 1, by omega⟩
    have hdata : pre ++ (p.length :: (p ++ tail)) ++ rest =
        pre ++ p.length :: (p ++ (tail ++ rest)) := by
      simp
    have hget : (pre ++ (p.length :: (p ++ tail)) ++ rest)[pre.length]? = some p.length := by
      rw [hdata]
      exact getElem?_append_self pre p.length (p ++ (tail ++ rest))
    have hlen : ¬((pre ++ (p.length :: (p ++ tail)) ++ rest).length ≤ pre.length) := by
      simp
    have hptr : ¬(p.length &&& 0xC0 = 0xC0) := by
      rw [and192_of_le p.length hp63]
      decide
    have hnz : ¬(p.length = 0) := by
      have := hne p (by simp)
      simpa [List.length_eq_zero] using this
    have hbound : ¬((pre ++ (p.length :: (p ++ tail)) ++ rest).length <
        pre.length + 1 + p.length) := by
      simp
      omega
    have hslice : (((pre ++ (p.length :: (p ++ tail)) ++ rest).drop (pre.length + 1)).take
        p.length) = p := by
      rw [show pre ++ (p.length :: (p ++ tail)) ++ rest =
        (pre ++ [p.length]) ++ p ++ (tail ++ rest) by simp]
      rw [show pre.length + 1 = (pre ++ [p.length]).length by simp]
      exact drop_take_middle _ _ _
    simp only [decodeNameAux, if_neg hlen, hget, if_neg hptr, if_neg hnz, if_neg hbound,
      hslice]
    have hoff : pre.length + 1 + p.length = (pre ++ p.length :: p).length := by
      simp
      omega
    have hdata2 : pre ++ (p.length :: (p ++ tail)) ++ rest =
        (pre ++ p.length :: p) ++ tail ++ rest := by
      simp
    rw [hoff, hdata2,
      ih f (pre ++ p.length :: p) tail rest (parts ++ [p]) jumped jo htail
        (fun l hl => hne l (by simp [hl])) (by simp at hfuel; omega)]
    have e1 : (parts ++ [p]) ++ ps = parts ++ p :: ps := by simp
    have e2 : (pre ++ p.length :: p).length + tail.length =
        pre.length + (p.length :: (p ++ tail)).length := by
      simp
      omega
    rw [e1, e2]

/-- Decoding at the start of an encoded well-formed name (with anything before
and after it) returns the original name and leaves the cursor just past the
terminating zero byte. -/
theorem decode_name_encoded (name enc pre rest : List Nat) (fuel : Nat)
    (henc : DnsQuestion.encode_name name = some enc)
    (hne : ∀ l ∈ name.splitOn 46, l ≠ [])
    (hfuel : enc.length ≤ fuel) :
    DnsQuestion.decode_name fuel (pre ++ enc ++ rest) pre.length =
      .ok (name, pre.length + enc.length) := by
  unfold DnsQuestion.decode_name
  have hlen := encodeLabels_length henc
  rw [decodeNameAux_encode (name.splitOn 46) fuel pre enc rest [] false pre.length henc hne
    (by omega)]
  simp [List.intercalate_splitOn]

/-! ## Question and answer sections: parsing serialized sections -/

theorem rtype_from_toU16 (t : DnsRecordType) :
    DnsRecordType.from_u16 t.toU16 = some t := by
  cases t <;> rfl

theorem rtype_toU16_mod (t : DnsRecordType) : t.toU16 % 65536 = t.toU16 := by
  cases t <;> rfl

theorem cls_toU16_mod (c : DnsClass) : c.toU16 % 65536 = c.toU16 := by
  cases c
  rfl

theorem cls_from_toU16 (c : DnsClass) : DnsClass.from_u16 c.toU16 = some c := by
  cases c
  rfl

theorem question_to_bytes_some {q : DnsQuestion} {qb : List Nat}
    (h : q.to_bytes = some qb) :
    ∃ enc, DnsQuestion.encode_name q.name = some enc ∧
      qb = enc ++ u16Bytes q.qtype.toU16 ++ u16Bytes q.qclass.toU16 := by
  unfold DnsQuestion.to_bytes at h
  rw [Option.map_eq_some'] at h
  obtain ⟨enc, he, hq⟩ := h
  exact ⟨enc, he, hq.symm⟩

theorem questionsBytes_cons {q : DnsQuestion} {qs : List DnsQuestion} {qb : List Nat}
    (h : questionsBytes (q :: qs) = some qb) :
    ∃ b tail, q.to_bytes = some b ∧ questionsBytes qs = some tail ∧ qb = b ++ tail := by
  unfold questionsBytes at h
  cases hb : q.to_bytes with
  | none => rw [hb] at h; simp at h
  | some b =>
    rw [hb] at h
    cases ht : questionsBytes qs with
    | none => rw [ht] at h; simp at h
    | some tail =>
      rw [ht] at h
      simp at h
      exact ⟨b, tail, rfl, rfl, h.symm⟩

theorem encode_name_length_pos {name enc : List Nat}
    (h : DnsQuestion.encode_name name = some enc) : 0 < enc.length := by
  have := encodeLabels_length h
  omega

/-- Parsing `qs.length` questions at the start of their serialization recovers
the questions and leaves the cursor just past them. -/
theorem parseQuestionsAux_encoded (qs : List DnsQuestion) :
    ∀ (fuel : Nat) (pre qb rest : List Nat) (acc : List DnsQuestion),
      questionsBytes qs = some qb →
      (∀ q ∈ qs, ∀ l ∈ q.name.splitOn 46, l ≠ []) →
      (pre ++ qb ++ rest).length ≤ fuel →
      parseQuestionsAux fuel (pre ++ qb ++ rest) qs.length pre.length acc =
        .ok (acc ++ qs, pre.length + qb.length) := by
  induction qs with
  | nil =>
    intro fuel pre qb rest acc hqb hwf hfuel
    obtain rfl : ([] : List Nat) = qb := Option.some.inj hqb
    simp only [parseQuestionsAux]
    simp
  | cons q qs ih =>
    intro fuel pre qb rest acc hqb hwf hfuel
    obtain ⟨b, tail, hb, htail, rfl⟩ := questionsBytes_cons hqb
    obtain ⟨enc, henc, rfl⟩ := question_to_bytes_some hb
    have hne : ∀ l ∈ q.name.splitOn 46, l ≠ [] := hwf q (by simp)
    have hencpos := encode_name_length_pos henc
    -- canonical shape of the buffer for the decode step
    have hshape1 : pre ++ (enc ++ u16Bytes q.qtype.toU16 ++ u16Bytes q.qclass.toU16 ++ tail)
        ++ rest = pre ++ enc ++ (u16Bytes q.qtype.toU16 ++ u16Bytes q.qclass.toU16 ++
          (tail ++ rest)) := by
      simp
    have hfuel2 := hfuel
    simp only [List.length_append, u16Bytes, List.length_cons, List.length_nil] at hfuel2
    have hfuel' : enc.length ≤ fuel := by omega
    have hdec : DnsQuestion.decode_name fuel
        (pre ++ (enc ++ u16Bytes q.qtype.toU16 ++ u16Bytes q.qclass.toU16 ++ tail) ++ rest)
        pre.length = .ok (q.name, pre.length + enc.length) := by
      rw [hshape1]
      exact decode_name_encoded q.name enc pre _ fuel henc hne hfuel'
    have hlen : ¬((pre ++ (enc ++ u16Bytes q.qtype.toU16 ++ u16Bytes q.qclass.toU16 ++ tail)
        ++ rest).length ≤ pre.length) := by
      simp only [List.length_append, u16Bytes, List.length_cons, List.length_nil]
      omega
    have hlen4 : ¬((pre ++ (enc ++ u16Bytes q.qtype.toU16 ++ u16Bytes q.qclass.toU16 ++ tail)
        ++ rest).length < pre.length + enc.length + 4) := by
      simp only [List.length_append, u16Bytes, List.length_cons, List.length_nil]
      omega
    have hrt : readU16 (pre ++ (enc ++ u16Bytes q.qtype.toU16 ++ u16Bytes q.qclass.toU16 ++
        tail) ++ rest) (pre.length + enc.length) = q.qtype.toU16 := by
      rw [show pre ++ (enc ++ u16Bytes q.qtype.toU16 ++ u16Bytes q.qclass.toU16 ++ tail)
          ++ rest = (pre ++ enc) ++ u16Bytes q.qtype.toU16 ++
          (u16Bytes q.qclass.toU16 ++ tail ++ rest) by simp,
        show pre.length + enc.length = (pre ++ enc).length by simp]
      rw [readU16_u16Bytes]
      exact rtype_toU16_mod q.qtype
    have hrc : readU16 (pre ++ (enc ++ u16Bytes q.qtype.toU16 ++ u16Bytes q.qclass.toU16 ++
        tail) ++ rest) (pre.length + enc.length + 2) = q.qclass.toU16 := by
      rw [show pre ++ (enc ++ u16Bytes q.qtype.toU16 ++ u16Bytes q.qclass.toU16 ++ tail)
          ++ rest = (pre ++ enc ++ u16Bytes q.qtype.toU16) ++ u16Bytes q.qclass.toU16 ++
          (tail ++ rest) by simp,
        show pre.length + enc.length + 2 =
          (pre ++ enc ++ u16Bytes q.qtype.toU16).length by
            simp only [List.length_append, u16Bytes, List.length_cons, List.length_nil]
            try omega]
      rw [readU16_u16Bytes]
      exact cls_toU16_mod q.qclass
    simp only [parseQuestionsAux, if_neg hlen, hdec, DecodeOut.bind, if_neg hlen4,
      hrt, hrc, rtype_from_toU16, cls_from_toU16]
    have hoff : pre.length + enc.length + 4 =
        (pre ++ (enc ++ u16Bytes q.qtype.toU16 ++ u16Bytes q.qclass.toU16)).length := by
      simp only [List.length_append, u16Bytes, List.length_cons, List.length_nil]
      omega
    have hdata2 : pre ++ (enc ++ u16Bytes q.qtype.toU16 ++ u16Bytes q.qclass.toU16 ++ tail)
        ++ rest = (pre ++ (enc ++ u16Bytes q.qtype.toU16 ++ u16Bytes q.qclass.toU16)) ++
        tail ++ rest := by
      simp
    rw [hoff, hdata2, ih fuel _ tail rest (acc ++ [q]) htail
      (fun p hp => hwf p (by simp [hp])) (by rw [← hdata2]; exact hfuel)]
    have e2 : (pre ++ (enc ++ u16Bytes q.qtype.toU16 ++ u16Bytes q.qclass.toU16)).length +
        tail.length = pre.length +
        (enc ++ u16Bytes q.qtype.toU16 ++ u16Bytes q.qclass.toU16 ++ tail).length := by
      simp only [List.length_append, u16Bytes, List.length_cons, List.length_nil]
      omega
    rw [List.append_assoc acc [q] qs, List.singleton_append, e2]

theorem record_to_bytes_some {r : DnsRecord} {rb : List Nat}
    (h : r.to_bytes = some rb) :
    ∃ enc, DnsQuestion.encode_name r.name = some enc ∧
      rb = enc ++ u16Bytes r.rtype.toU16 ++ u16Bytes r.cls.toU16 ++ u32Bytes r.ttl
        ++ u16Bytes r.data.length ++ r.data := by
  unfold DnsRecord.to_bytes at h
  rw [Option.map_eq_some'] at h
  obtain ⟨enc, he, hr⟩ := h
  exact ⟨enc, he, hr.symm⟩

theorem recordsBytes_cons {r : DnsRecord} {rs : List DnsRecord} {ab : List Nat}
    (h : recordsBytes (r :: rs) = some ab) :
    ∃ b tail, r.to_bytes = some b ∧ recordsBytes rs = some tail ∧ ab = b ++ tail := by
  unfold recordsBytes at h
  cases hb : r.to_bytes with
  | none => rw [hb] at h; simp at h
  | some b =>
    rw [hb] at h
    cases ht : recordsBytes rs with
    | none => rw [ht] at h; simp at h
    | some tail =>
      rw [ht] at h
      simp at h
      exact ⟨b, tail, rfl, rfl, h.symm⟩

/-- Parsing `rs.length` answer records at the start of their serialization
recovers the records, provided every record's data is shorter than 65536
bytes (the `as u16` cast) and its ttl fits in 32 bits. -/
theorem parseAnswersAux_encoded (rs : List DnsRecord) :
    ∀ (fuel : Nat) (pre ab rest : List Nat) (acc : List DnsRecord),
      recordsBytes rs = some ab →
      (∀ r ∈ rs, (∀ l ∈ r.name.splitOn 46, l ≠ []) ∧ r.ttl < 4294967296 ∧
        r.data.length < 65536) →
      (pre ++ ab ++ rest).length ≤ fuel →
      parseAnswersAux fuel (pre ++ ab ++ rest) rs.length pre.length acc =
        .ok (acc ++ rs) := by
  induction rs with
  | nil =>
    intro fuel pre ab rest acc hab hwf hfuel
    obtain rfl : ([] : List Nat) = ab := Option.some.inj hab
    simp only [parseAnswersAux]
    simp
  | cons r rs ih =>
    intro fuel pre ab rest acc hab hwf hfuel
    obtain ⟨b, tail, hb, htail, rfl⟩ := recordsBytes_cons hab
    obtain ⟨enc, henc, rfl⟩ := record_to_bytes_some hb
    obtain ⟨hne, httl, hdlen⟩ := hwf r (by simp)
    have hencpos := encode_name_length_pos henc
    set fixed : List Nat := u16Bytes r.rtype.toU16 ++ u16Bytes r.cls.toU16 ++
      u32Bytes r.ttl ++ u16Bytes r.data.length with hfixed
    have hb2 : enc ++ u16Bytes r.rtype.toU16 ++ u16Bytes r.cls.toU16 ++ u32Bytes r.ttl
        ++ u16Bytes r.data.length ++ r.data = enc ++ (fixed ++ r.data) := by
      simp [hfixed]
    rw [hb2]
    rw [hb2] at hfuel
    have hfuel2 := hfuel
    simp only [hfixed, List.length_append, u16Bytes, u32Bytes, List.length_cons,
      List.length_nil] at hfuel2
    have hdec : DnsQuestion.decode_name fuel
        (pre ++ (enc ++ (fixed ++ r.data) ++ tail) ++ rest) pre.length =
        .ok (r.name, pre.length + enc.length) := by
      rw [show pre ++ (enc ++ (fixed ++ r.data) ++ tail) ++ rest =
        pre ++ enc ++ (fixed ++ r.data ++ tail ++ rest) by simp]
      exact decode_name_encoded r.name enc pre _ fuel henc hne (by
        simp only [hfixed, List.length_append, u16Bytes, u32Bytes, List.length_cons,
          List.length_nil] at hfuel ⊢
        omega)
    have hlen : ¬((pre ++ (enc ++ (fixed ++ r.data) ++ tail) ++ rest).length ≤
        pre.length) := by
      simp only [hfixed, List.length_append, u16Bytes, u32Bytes, List.length_cons,
        List.length_nil]
      omega
    have hlen10 : ¬((pre ++ (enc ++ (fixed ++ r.data) ++ tail) ++ rest).length <
        pre.length + enc.length + 10) := by
      simp only [hfixed, List.length_append, u16Bytes, u32Bytes, List.length_cons,
        List.length_nil]
      omega
    have hrt : readU16 (pre ++ (enc ++ (fixed ++ r.data) ++ tail) ++ rest)
        (pre.length + enc.length) = r.rtype.toU16 := by
      rw [show pre ++ (enc ++ (fixed ++ r.data) ++ tail) ++ rest =
        (pre ++ enc) ++ u16Bytes r.rtype.toU16 ++ (u16Bytes r.cls.toU16 ++ u32Bytes r.ttl
          ++ u16Bytes r.data.length ++ r.data ++ tail ++ rest) by simp [hfixed],
        show pre.length + enc.length = (pre ++ enc).length by simp]
      rw [readU16_u16Bytes]
      exact rtype_toU16_mod r.rtype
    have hrc : readU16 (pre ++ (enc ++ (fixed ++ r.data) ++ tail) ++ rest)
        (pre.length + enc.length + 2) = r.cls.toU16 := by
      rw [show pre ++ (enc ++ (fixed ++ r.data) ++ tail) ++ rest =
        (pre ++ enc ++ u16Bytes r.rtype.toU16) ++ u16Bytes r.cls.toU16 ++ (u32Bytes r.ttl
          ++ u16Bytes r.data.length ++ r.data ++ tail ++ rest) by simp [hfixed],
        show pre.length + enc.length + 2 =
          (pre ++ enc ++ u16Bytes r.rtype.toU16).length by
            simp only [List.length_append, u16Bytes, List.length_cons, List.length_nil]
            try omega]
      rw [readU16_u16Bytes]
      exact cls_toU16_mod r.cls
    have httlr : readU32 (pre ++ (enc ++ (fixed ++ r.data) ++ tail) ++ rest)
        (pre.length + enc.length + 4) = r.ttl := by
      rw [show pre ++ (enc ++ (fixed ++ r.data) ++ tail) ++ rest =
        (pre ++ enc ++ u16Bytes r.rtype.toU16 ++ u16Bytes r.cls.toU16) ++ u32Bytes r.ttl ++
          (u16Bytes r.data.length ++ r.data ++ tail ++ rest) by simp [hfixed],
        show pre.length + enc.length + 4 =
          (pre ++ enc ++ u16Bytes r.rtype.toU16 ++ u16Bytes r.cls.toU16).length by
            simp only [List.length_append, u16Bytes, List.length_cons, List.length_nil]
            try omega]
      rw [readU32_u32Bytes]
      omega
    have hdl : readU16 (pre ++ (enc ++ (fixed ++ r.data) ++ tail) ++ rest)
        (pre.length + enc.length + 8) = r.data.length := by
      rw [show pre ++ (enc ++ (fixed ++ r.data) ++ tail) ++ rest =
        (pre ++ enc ++ u16Bytes r.rtype.toU16 ++ u16Bytes r.cls.toU16 ++ u32Bytes r.ttl) ++
          u16Bytes r.data.length ++ (r.data ++ tail ++ rest) by simp [hfixed],
        show pre.length + enc.length + 8 =
          (pre ++ enc ++ u16Bytes r.rtype.toU16 ++ u16Bytes r.cls.toU16 ++
            u32Bytes r.ttl).length by
            simp only [List.length_append, u16Bytes, u32Bytes, List.length_cons,
              List.length_nil]
            try omega]
      rw [readU16_u16Bytes]
      omega
    have hlenrd : ¬((pre ++ (enc ++ (fixed ++ r.data) ++ tail) ++ rest).length <
        pre.length + enc.length + 10 + r.data.length) := by
      simp only [hfixed, List.length_append, u16Bytes, u32Bytes, List.length_cons,
        List.length_nil]
      omega
    have hslice : (((pre ++ (enc ++ (fixed ++ r.data) ++ tail) ++ rest).drop
        (pre.length + enc.length + 10)).take r.data.length) = r.data := by
      rw [show pre ++ (enc ++ (fixed ++ r.data) ++ tail) ++ rest =
        (pre ++ enc ++ fixed) ++ r.data ++ (tail ++ rest) by simp,
        show pre.length + enc.length + 10 = (pre ++ enc ++ fixed).length by
          simp only [hfixed, List.length_append, u16Bytes, u32Bytes, List.length_cons,
            List.length_nil]
          try omega]
      exact drop_take_middle _ _ _
    simp only [parseAnswersAux, if_neg hlen, hdec, DecodeOut.bind, if_neg hlen10,
      hrt, hrc, httlr, hdl, if_neg hlenrd, hslice, rtype_from_toU16,
      cls_from_toU16]
    have hoff : pre.length + enc.length + 10 + r.data.length =
        (pre ++ (enc ++ (fixed ++ r.data))).length := by
      simp only [hfixed, List.length_append, u16Bytes, u32Bytes, List.length_cons,
        List.length_nil]
      omega
    have hdata2 : pre ++ (enc ++ (fixed ++ r.data) ++ tail) ++ rest =
        (pre ++ (enc ++ (fixed ++ r.data))) ++ tail ++ rest := by
      simp
    rw [hoff, hdata2, ih fuel _ tail rest (acc ++ [r]) htail
      (fun p hp => hwf p (by simp [hp])) (by rw [← hdata2]; exact hfuel)]
    rw [List.append_assoc acc [r] rs, List.singleton_append]

/-! ## Whole-message round trip -/

theorem message_to_bytes_some {m : DnsMessage} {bs : List Nat}
    (h : m.to_bytes = some bs) :
    ∃ qb ab, questionsBytes m.questions = some qb ∧ recordsBytes m.answers = some ab ∧
      bs = m.header.to_bytes ++ (qb ++ ab) := by
  unfold DnsMessage.to_bytes at h
  cases hq : questionsBytes m.questions with
  | none => rw [hq] at h; simp at h
  | some qb =>
    rw [hq] at h
    cases ha : recordsBytes m.answers with
    | none => rw [ha] at h; simp at h
    | some ab =>
      rw [ha] at h
      simp at h
      exact ⟨qb, ab, rfl, rfl, h.symm⟩

/-- Round trip of a whole message: if the counts match the sections, all names
are well formed, the header fields are in their bit widths, each ttl fits in
`u32`, and every answer's data is shorter than 65536 bytes, then parsing the
serialization succeeds and reproduces the header, the questions, and the
answers exactly. -/
theorem message_round_trip (m : DnsMessage) (bs : List Nat) (fuel : Nat)
    (hm : messageWellFormed m)
    (hdata : ∀ r ∈ m.answers, r.data.length < 65536)
    (hbs : m.to_bytes = some bs)
    (hfuel : bs.length ≤ fuel) :
    DnsMessage.from_bytes fuel bs = .ok ⟨m.header, m.questions, m.answers, [], []⟩ := by
  obtain ⟨hw, hqd, han, hns, har, hqn, hans⟩ := hm
  obtain ⟨qb, ab, hq, ha, rfl⟩ := message_to_bytes_some hbs
  unfold DnsMessage.from_bytes
  rw [if_neg (by
    simp only [List.length_append, DnsHeader.to_bytes_length]
    omega)]
  rw [show m.header.to_bytes ++ (qb ++ ab) = m.header.to_bytes ++ (qb ++ ab) from rfl]
  rw [header_round_trip m.header (qb ++ ab) hw]
  simp only [DecodeOut.bind]
  have hq12 : parseQuestionsAux fuel (m.header.to_bytes ++ (qb ++ ab))
      m.header.qdcount 12 [] = .ok (m.questions, 12 + qb.length) := by
    rw [hqd, show (12 : Nat) = m.header.to_bytes.length from
      (DnsHeader.to_bytes_length m.header).symm,
      show m.header.to_bytes ++ (qb ++ ab) = m.header.to_bytes ++ qb ++ ab by simp]
    rw [parseQuestionsAux_encoded m.questions fuel m.header.to_bytes qb ab [] hq
      (fun q hq' l hl => ((hqn q hq') l hl).1)
      (by rw [show m.header.to_bytes ++ qb ++ ab = m.header.to_bytes ++ (qb ++ ab) by simp]
          exact hfuel)]
    simp [DnsHeader.to_bytes_length]
  rw [hq12]
  simp only [DecodeOut.bind]
  have ha' : parseAnswersAux fuel (m.header.to_bytes ++ (qb ++ ab))
      m.header.ancount (12 + qb.length) [] = .ok m.answers := by
    rw [han, show 12 + qb.length = (m.header.to_bytes ++ qb).length by
        simp [DnsHeader.to_bytes_length],
      show m.header.to_bytes ++ (qb ++ ab) = (m.header.to_bytes ++ qb) ++ ab ++ [] by simp]
    rw [parseAnswersAux_encoded m.answers fuel (m.header.to_bytes ++ qb) ab [] [] ha
      (fun r hr => ⟨fun l hl => ((hans r hr).1 l hl).1, (hans r hr).2,
        hdata r hr⟩)
      (by rw [show (m.header.to_bytes ++ qb) ++ ab ++ [] =
            m.header.to_bytes ++ (qb ++ ab) by simp]
          exact hfuel)]
    simp
  rw [ha']

/-! ## Pointer-compression behaviour of `decode_name` -/

/-- One loop iteration at a compression-pointer byte: decoding continues at the
14-bit target, `jumped` becomes true, and the saved cursor is fixed to two past
the pointer only on the first jump. -/
theorem decodeNameAux_pointer_step (fuel : Nat) (data : List Nat) (offset : Nat)
    (parts : List (List Nat)) (jumped : Bool) (jo : Nat) (b second : Nat)
    (hget : data[offset]? = some b) (hb : b &&& 0xC0 = 0xC0)
    (hget2 : data[offset + 1]? = some second) :
    decodeNameAux data (fuel + 1) offset parts jumped jo =
      decodeNameAux data fuel (((b &&& 0x3F) <<< 8) ||| second) parts true
        (if jumped then jo else offset + 2) := by
  have hlt : offset < data.length := by
    have := List.getElem?_eq_some.mp hget
    exact this.1
  rw [decodeNameAux, if_neg (by omega)]
  simp only [hget]
  rw [if_pos hb]
  simp only [hget2]

/-- Once a jump has happened, the cursor finally returned is exactly the saved
`jump_offset`, whatever pointers are encountered afterwards. -/
theorem decodeNameAux_jumped_final (fuel : Nat) :
    ∀ (data : List Nat) (offset : Nat) (parts : List (List Nat)) (jo : Nat)
      (name : List Nat) (fin : Nat),
      decodeNameAux data fuel offset parts true jo = .ok (name, fin) → fin = jo := by
  induction fuel with
  | zero =>
    intro data offset parts jo name fin h
    simp [decodeNameAux] at h
  | succ f ih =>
    intro data offset parts jo name fin h
    rw [decodeNameAux] at h
    by_cases h1 : data.length ≤ offset
    · rw [if_pos h1] at h
      simp at h
    · rw [if_neg h1] at h
      cases hget : data[offset]? with
      | none =>
        simp only [hget] at h
        simp at h
      | some b =>
        simp only [hget] at h
        by_cases hb : b &&& 0xC0 = 0xC0
        · rw [if_pos hb] at h
          simp only [eq_self_iff_true, if_true] at h
          cases hget2 : data[offset + 1]? with
          | none =>
            simp only [hget2] at h
            simp at h
          | some second =>
            simp only [hget2] at h
            exact ih data _ parts jo name fin h
        · rw [if_neg hb] at h
          by_cases h0 : b = 0
          · rw [if_pos h0] at h
            simp only [eq_self_iff_true, if_true, DecodeOut.ok.injEq, Prod.mk.injEq] at h
            exact h.2.symm
          · rw [if_neg h0] at h
            by_cases h2 : data.length < offset + 1 + b
            · rw [if_pos h2] at h
              simp at h
            · rw [if_neg h2] at h
              exact ih data _ _ jo name fin h

/-- A pointer whose 14-bit target is its own position makes the decoding loop
revisit the same state forever: no fuel bound suffices. -/
theorem decodeNameAux_self_pointer (data : List Nat) (offset : Nat) (b second : Nat)
    (hget : data[offset]? = some b) (hb : b &&& 0xC0 = 0xC0)
    (hget2 : data[offset + 1]? = some second)
    (htgt : ((b &&& 0x3F) <<< 8) ||| second = offset) :
    ∀ (fuel : Nat) (parts : List (List Nat)) (jumped : Bool) (jo : Nat),
      decodeNameAux data fuel offset parts jumped jo = .diverge := by
  intro fuel
  induction fuel with
  | zero =>
    intro parts jumped jo
    rfl
  | succ f ih =>
    intro parts jumped jo
    rw [decodeNameAux_pointer_step f data offset parts jumped jo b second hget hb hget2,
      htgt]
    exact ih parts true _

/-! ## Error-handling policy of `from_bytes` -/

theorem from_bytes_question_err (fuel : Nat) (data : List Nat) (hdr : DnsHeader)
    (e : String) (hlen : ¬data.length < 12)
    (hh : DnsHeader.from_bytes data = .ok hdr)
    (hq : parseQuestionsAux fuel data hdr.qdcount 12 [] = .err e) :
    DnsMessage.from_bytes fuel data = .err e := by
  unfold DnsMessage.from_bytes
  rw [if_neg hlen, hh]
  simp only [DecodeOut.bind]
  rw [hq]

theorem from_bytes_answers_err (fuel : Nat) (data : List Nat) (hdr : DnsHeader)
    (qs : List DnsQuestion) (off : Nat) (e : String) (hlen : ¬data.length < 12)
    (hh : DnsHeader.from_bytes data = .ok hdr)
    (hq : parseQuestionsAux fuel data hdr.qdcount 12 [] = .ok (qs, off))
    (ha : parseAnswersAux fuel data hdr.ancount off [] = .err e) :
    DnsMessage.from_bytes fuel data = .err e := by
  unfold DnsMessage.from_bytes
  rw [if_neg hlen, hh]
  simp only [DecodeOut.bind]
  rw [hq]
  simp only [DecodeOut.bind]
  rw [ha]

theorem from_bytes_sections_ok (fuel : Nat) (data : List Nat) (hdr : DnsHeader)
    (qs : List DnsQuestion) (off : Nat) (ans : List DnsRecord)
    (hlen : ¬data.length < 12)
    (hh : DnsHeader.from_bytes data = .ok hdr)
    (hq : parseQuestionsAux fuel data hdr.qdcount 12 [] = .ok (qs, off))
    (ha : parseAnswersAux fuel data hdr.ancount off [] = .ok ans) :
    DnsMessage.from_bytes fuel data = .ok ⟨hdr, qs, ans, [], []⟩ := by
  unfold DnsMessage.from_bytes
  rw [if_neg hlen, hh]
  simp only [DecodeOut.bind]
  rw [hq]
  simp only [DecodeOut.bind]
  rw [ha]

/-- Answer loop: the buffer is already exhausted at the record boundary — stop
early and keep the accumulated answers. -/
theorem parseAnswersAux_break_boundary (fuel : Nat) (data : List Nat) (n off : Nat)
    (acc : List DnsRecord) (h : data.length ≤ off) :
    parseAnswersAux fuel data (n + 1) off acc = .ok acc := by
  rw [parseAnswersAux, if_pos h]

/-- Answer loop: too few bytes for the ten fixed bytes after the name — stop
early and keep the accumulated answers. -/
theorem parseAnswersAux_break_fixed (fuel : Nat) (data : List Nat) (n off : Nat)
    (acc : List DnsRecord) (nm : List Nat) (off1 : Nat)
    (h1 : ¬data.length ≤ off)
    (hdec : DnsQuestion.decode_name fuel data off = .ok (nm, off1))
    (h10 : data.length < off1 + 10) :
    parseAnswersAux fuel data (n + 1) off acc = .ok acc := by
  rw [parseAnswersAux, if_neg h1, hdec]
  simp only [DecodeOut.bind]
  rw [if_pos h10]

/-- Answer loop: too few bytes for the declared data length — stop early and
keep the accumulated answers. -/
theorem parseAnswersAux_break_rdata (fuel : Nat) (data : List Nat) (n off : Nat)
    (acc : List DnsRecord) (nm : List Nat) (off1 : Nat)
    (h1 : ¬data.length ≤ off)
    (hdec : DnsQuestion.decode_name fuel data off = .ok (nm, off1))
    (h10 : ¬data.length < off1 + 10)
    (hrd : data.length < off1 + 10 + readU16 data (off1 + 8)) :
    parseAnswersAux fuel data (n + 1) off acc = .ok acc := by
  rw [parseAnswersAux, if_neg h1, hdec]
  simp only [DecodeOut.bind]
  rw [if_neg h10, if_pos hrd]

/-- Answer loop: a failure while decoding the record's name is propagated, not
treated leniently. -/
theorem parseAnswersAux_name_err (fuel : Nat) (data : List Nat) (n off : Nat)
    (acc : List DnsRecord) (e : String)
    (h1 : ¬data.length ≤ off)
    (hdec : DnsQuestion.decode_name fuel data off = .err e) :
    parseAnswersAux fuel data (n + 1) off acc = .err e := by
  rw [parseAnswersAux, if_neg h1, hdec]
  rfl

/-- Answer loop: a record whose numeric type or class code is unrecognized is
skipped silently — the cursor advances past it, nothing is appended, and no
error is raised. -/
theorem parseAnswersAux_skip (fuel : Nat) (data : List Nat) (n off : Nat)
    (acc : List DnsRecord) (nm : List Nat) (off1 : Nat)
    (h1 : ¬data.length ≤ off)
    (hdec : DnsQuestion.decode_name fuel data off = .ok (nm, off1))
    (h10 : ¬data.length < off1 + 10)
    (hrd : ¬data.length < off1 + 10 + readU16 data (off1 + 8))
    (hcode : DnsRecordType.from_u16 (readU16 data off1) = none ∨
      DnsClass.from_u16 (readU16 data (off1 + 2)) = none) :
    parseAnswersAux fuel data (n + 1) off acc =
      parseAnswersAux fuel data n (off1 + 10 + readU16 data (off1 + 8)) acc := by
  rw [parseAnswersAux, if_neg h1, hdec]
  simp only [DecodeOut.bind]
  rw [if_neg h10, if_neg hrd]
  rcases hcode with hc | hc
  · rw [hc]
  · rw [hc]
    cases DnsRecordType.from_u16 (readU16 data off1) <;> rfl

/-- Question loop: an unrecognized numeric type code is a fatal
unsupported-code error. -/
theorem parseQuestionsAux_bad_qtype (fuel : Nat) (data : List Nat) (n off : Nat)
    (acc : List DnsQuestion) (nm : List Nat) (off1 : Nat)
    (h1 : ¬data.length ≤ off)
    (hdec : DnsQuestion.decode_name fuel data off = .ok (nm, off1))
    (h4 : ¬data.length < off1 + 4)
    (htype : DnsRecordType.from_u16 (readU16 data off1) = none) :
    parseQuestionsAux fuel data (n + 1) off acc = .err "Type de question invalide" := by
  rw [parseQuestionsAux, if_neg h1, hdec]
  simp only [DecodeOut.bind]
  rw [if_neg h4, htype]

/-- Question loop: an unrecognized numeric class code is a fatal
unsupported-code error. -/
theorem parseQuestionsAux_bad_qclass (fuel : Nat) (data : List Nat) (n off : Nat)
    (acc : List DnsQuestion) (nm : List Nat) (off1 : Nat) (t : DnsRecordType)
    (h1 : ¬data.length ≤ off)
    (hdec : DnsQuestion.decode_name fuel data off = .ok (nm, off1))
    (h4 : ¬data.length < off1 + 4)
    (htype : DnsRecordType.from_u16 (readU16 data off1) = some t)
    (hcls : DnsClass.from_u16 (readU16 data (off1 + 2)) = none) :
    parseQuestionsAux fuel data (n + 1) off acc = .err "Classe de question invalide" := by
  rw [parseQuestionsAux, if_neg h1, hdec]
  simp only [DecodeOut.bind]
  rw [if_neg h4, htype, hcls]

/-! ## Server response building -/

/-- A resolving type-A question: one A record with ttl 300 is appended,
`ancount` is incremented, and `rcode` is left unchanged. -/
theorem handleQuestion_A_found (db : SimpleDnsDatabase) (resp : DnsMessage)
    (q : DnsQuestion) (ip : Ipv4Addr) (hA : q.qtype = .A)
    (hip : db.lookup q.name = some ip) :
    handleQuestion db resp q =
      { resp with
        answers := resp.answers ++ [DnsRecord.new_a_record q.name ip 300],
        header := { resp.header with ancount := resp.header.ancount + 1 } } := by
  unfold handleQuestion
  rw [hA, hip]

/-- A non-resolving type-A question: `rcode` is set to 3 (NXDOMAIN) and the
answers are left unchanged. -/
theorem handleQuestion_A_notfound (db : SimpleDnsDatabase) (resp : DnsMessage)
    (q : DnsQuestion) (hA : q.qtype = .A) (hip : db.lookup q.name = none) :
    handleQuestion db resp q =
      { resp with header := { resp.header with rcode := 3 } } := by
  unfold handleQuestion
  rw [hA, hip]

/-- A question of any type other than A: `rcode` is set to 4 (NOTIMP) and the
answers are left unchanged. -/
theorem handleQuestion_other (db : SimpleDnsDatabase) (resp : DnsMessage)
    (q : DnsQuestion) (hA : q.qtype ≠ .A) :
    handleQuestion db resp q =
      { resp with header := { resp.header with rcode := 4 } } := by
  unfold handleQuestion
  cases hq : q.qtype <;> first
    | exact absurd hq hA
    | rfl

/-! ## Encoding failure on long labels -/

theorem encodeLabels_long_none (ls : List (List Nat)) (h : ∃ p ∈ ls, 63 < p.length) :
    encodeLabels ls = none := by
  obtain ⟨p, hp, hlen⟩ := h
  induction ls with
  | nil => cases hp
  | cons q qs ih =>
    unfold encodeLabels
    by_cases hq : q.length > 63
    · rw [if_pos hq]
    · rw [if_neg hq]
      have hpq : p ∈ qs := by
        rcases List.mem_cons.mp hp with rfl | hmem
        · omega
        · exact hmem
      rw [ih hpq]
      rfl

theorem oversized_to_bytes : oversizedMsg.to_bytes = some oversizedBytes := by
  unfold oversizedMsg DnsMessage.to_bytes
  simp only [questionsBytes, recordsBytes, DnsRecord.to_bytes]
  rw [show DnsQuestion.encode_name [97] = some [1, 97, 0] from by decide]
  simp only [List.length_replicate]
  rw [show u16Bytes 65536 = [0, 0] from by decide,
    show u16Bytes (DnsRecordType.toU16 .A) = [0, 1] from by decide,
    show u16Bytes (DnsClass.toU16 .IN) = [0, 1] from by decide,
    show u32Bytes 0 = [0, 0, 0, 0] from by decide]
  simp only [Option.bind_eq_bind, Option.some_bind, Option.map_some', Option.pure_def,
    Option.some.injEq, oversizedBytes, List.append_nil, List.nil_append,
    List.append_assoc]

theorem parseAnswersAux_step_ok (fuel : Nat) (data : List Nat) (n off : Nat)
    (acc : List DnsRecord) (nm : List Nat) (off1 : Nat) (rtype : DnsRecordType)
    (cls : DnsClass)
    (h1 : ¬data.length ≤ off)
    (hdec : DnsQuestion.decode_name fuel data off = .ok (nm, off1))
    (h10 : ¬data.length < off1 + 10)
    (hrd : ¬data.length < off1 + 10 + readU16 data (off1 + 8))
    (ht : DnsRecordType.from_u16 (readU16 data off1) = some rtype)
    (hc : DnsClass.from_u16 (readU16 data (off1 + 2)) = some cls) :
    parseAnswersAux fuel data (n + 1) off acc =
      parseAnswersAux fuel data n (off1 + 10 + readU16 data (off1 + 8))
        (acc ++ [⟨nm, rtype, cls, readU32 data (off1 + 4),
          (data.drop (off1 + 10)).take (readU16 data (off1 + 8))⟩]) := by
  rw [parseAnswersAux, if_neg h1, hdec]
  simp only [DecodeOut.bind]
  rw [if_neg h10, if_neg hrd, ht, hc]

theorem oversizedBytes_length : oversizedBytes.length = 65561 := by
  simp only [oversizedBytes, List.length_append, List.length_cons, List.length_nil,
    List.length_replicate, DnsHeader.to_bytes_length]

theorem oversized_from_bytes :
    DnsMessage.from_bytes 65561 oversizedBytes = .ok oversizedParsed := by
  have htot := oversizedBytes_length
  have h12 : anOneHdr.to_bytes.length = 12 := DnsHeader.to_bytes_length _
  have hdec : DnsQuestion.decode_name 65561 oversizedBytes 12 = .ok ([97], 15) := by
    have hstep := decode_name_encoded [97] [1, 97, 0] anOneHdr.to_bytes
      ([0, 1] ++ [0, 1] ++ [0, 0, 0, 0] ++ [0, 0] ++ List.replicate 65536 7) 65561
      (by decide) (by decide) (by decide)
    rw [h12] at hstep
    rw [show oversizedBytes = anOneHdr.to_bytes ++ [1, 97, 0] ++
      ([0, 1] ++ [0, 1] ++ [0, 0, 0, 0] ++ [0, 0] ++ List.replicate 65536 7) by
        simp only [oversizedBytes, List.append_assoc]]
    exact hstep
  have hr15 : readU16 oversizedBytes 15 = 1 := by
    have hsh : oversizedBytes = (anOneHdr.to_bytes ++ [1, 97, 0]) ++ 0 :: 1 ::
        ([0, 1] ++ [0, 0, 0, 0] ++ [0, 0] ++ List.replicate 65536 7) := by
      simp only [oversizedBytes, List.append_assoc, List.cons_append, List.nil_append]
    have hl : (anOneHdr.to_bytes ++ [1, 97, 0]).length = 15 := by
      simp [DnsHeader.to_bytes_length]
    rw [hsh, show (15 : Nat) = (anOneHdr.to_bytes ++ [1, 97, 0]).length from hl.symm,
      readU16_at]
  have hr17 : readU16 oversizedBytes 17 = 1 := by
    have hsh : oversizedBytes = (anOneHdr.to_bytes ++ [1, 97, 0] ++ [0, 1]) ++ 0 :: 1 ::
        ([0, 0, 0, 0] ++ [0, 0] ++ List.replicate 65536 7) := by
      simp only [oversizedBytes, List.append_assoc, List.cons_append, List.nil_append]
    have hl : (anOneHdr.to_bytes ++ [1, 97, 0] ++ [0, 1]).length = 17 := by
      simp [DnsHeader.to_bytes_length]
    rw [hsh, show (17 : Nat) = (anOneHdr.to_bytes ++ [1, 97, 0] ++ [0, 1]).length
      from hl.symm, readU16_at]
  have hr19 : readU32 oversizedBytes 19 = 0 := by
    have hsh : oversizedBytes = (anOneHdr.to_bytes ++ [1, 97, 0] ++ [0, 1] ++ [0, 1]) ++
        0 :: 0 :: 0 :: 0 :: ([0, 0] ++ List.replicate 65536 7) := by
      simp only [oversizedBytes, List.append_assoc, List.cons_append, List.nil_append]
    have hl : (anOneHdr.to_bytes ++ [1, 97, 0] ++ [0, 1] ++ [0, 1]).length = 19 := by
      simp [DnsHeader.to_bytes_length]
    rw [hsh, show (19 : Nat) =
      (anOneHdr.to_bytes ++ [1, 97, 0] ++ [0, 1] ++ [0, 1]).length from hl.symm,
      readU32_at]
  have hr23 : readU16 oversizedBytes 23 = 0 := by
    have hsh : oversizedBytes = (anOneHdr.to_bytes ++ [1, 97, 0] ++ [0, 1] ++ [0, 1] ++
        [0, 0, 0, 0]) ++ 0 :: 0 :: List.replicate 65536 7 := by
      simp only [oversizedBytes, List.append_assoc, List.cons_append, List.nil_append]
    have hl : (anOneHdr.to_bytes ++ [1, 97, 0] ++ [0, 1] ++ [0, 1] ++
        [0, 0, 0, 0]).length = 23 := by
      simp [DnsHeader.to_bytes_length]
    rw [hsh, show (23 : Nat) = (anOneHdr.to_bytes ++ [1, 97, 0] ++ [0, 1] ++ [0, 1] ++
      [0, 0, 0, 0]).length from hl.symm, readU16_at]
  apply from_bytes_sections_ok 65561 oversizedBytes anOneHdr [] 12 [⟨[97], .A, .IN, 0, []⟩]
  · omega
  · rw [show oversizedBytes = anOneHdr.to_bytes ++
      ([1, 97, 0] ++ [0, 1] ++ [0, 1] ++ [0, 0, 0, 0] ++ [0, 0] ++
        List.replicate 65536 7) by simp only [oversizedBytes]]
    exact header_round_trip anOneHdr _ (by decide)
  · rfl
  · have step := parseAnswersAux_step_ok 65561 oversizedBytes 0 12 [] [97] 15 .A .IN
      (by omega) hdec (by omega) (by rw [hr23]; omega)
      (by rw [hr15]; rfl) (by rw [hr17]; rfl)
    rw [hr23, hr19] at step
    have tail : parseAnswersAux 65561 oversizedBytes 0 (15 + 10 + 0)
        ([] ++ [⟨[97], .A, .IN, 0, (oversizedBytes.drop (15 + 10)).take 0⟩]) =
        .ok [⟨[97], .A, .IN, 0, []⟩] := by
      simp only [parseAnswersAux, List.take_zero, List.nil_append]
    exact step.trans tail

/-! ## The claims -/

/-- C1 (amended).  For every `DnsMessage` whose header counts match its
sections (`qdcount` = number of questions, `ancount` = number of answers,
`nscount = arcount = 0`), whose names are dot-joined sequences of non-empty
labels of at most 63 bytes each, whose header fields are inside their declared
bit widths, whose ttls fit in `u32`, and **whose answers' data is shorter
than 65536 bytes** (the length is written through a truncating `as u16` cast),
`DnsMessage::from_bytes (DnsMessage::to_bytes m)` succeeds and reproduces the
header fields and every question's and answer's name, type, class, ttl and
data exactly. -/
theorem c1_message_round_trip (m : DnsMessage) (bs : List Nat) (fuel : Nat)
    (hm : messageWellFormed m)
    (hdata : ∀ r ∈ m.answers, r.data.length < 65536)
    (hbs : m.to_bytes = some bs)
    (hfuel : bs.length ≤ fuel) :
    DnsMessage.from_bytes fuel bs = .ok ⟨m.header, m.questions, m.answers, [], []⟩ :=
  message_round_trip m bs fuel hm hdata hbs hfuel

/-- Witness for C1: the round trip evaluated on a concrete one-question,
one-answer message. -/
theorem c1_message_round_trip_witness :
    messageWellFormed w1msg ∧
    DnsMessage.from_bytes 47 w1bytes =
      .ok ⟨w1msg.header, w1msg.questions, w1msg.answers, [], []⟩ :=
  ⟨by decide,
   c1_message_round_trip w1msg w1bytes 47 (by decide) (by decide) (by decide) (by decide)⟩

/-- Counterexample to C1 as frozen: `oversizedMsg` satisfies every hypothesis
the claim states (counts match, names well formed, header fields in their
widths), yet its single answer carries 65536 bytes of data, the wire length
truncates to 0, and the reparsed answer's data is `[]`, not the original
65536 bytes.  The parse still succeeds, so the message is *not* reproduced
exactly. -/
theorem c1_round_trip_counterexample :
    messageWellFormed oversizedMsg ∧
    oversizedMsg.to_bytes = some oversizedBytes ∧
    DnsMessage.from_bytes 65561 oversizedBytes = .ok oversizedParsed ∧
    oversizedParsed.answers.map DnsRecord.data = [[]] ∧
    oversizedMsg.answers.map DnsRecord.data = [List.replicate 65536 7] ∧
    List.replicate 65536 7 ≠ ([] : List Nat) :=
  ⟨by decide, oversized_to_bytes, oversized_from_bytes, rfl, rfl, by
    intro h
    have := congrArg List.length h
    simp only [List.length_replicate, List.length_nil] at this
    exact absurd this (by decide)⟩

/-- C2 (code bug evaluated).  When the byte at the cursor has its top two bits
set and is the last byte of the buffer, `decode_name` indexes
`data[offset + 1]` out of bounds and panics instead of returning a parse
error: on the one-byte buffer `[0xC0]` the result is a panic for every
iteration bound. -/
theorem c2_trailing_pointer_panics (fuel : Nat) :
    DnsQuestion.decode_name (fuel + 1) [0xC0] 0 = .panic := rfl

/-- C3 (amended).  `decode_name` does not terminate on every input: the number
of consecutive compression-pointer jumps is unbounded, and a pointer whose
14-bit target is its own position makes the loop revisit the same offset
forever — no iteration bound makes it finish. -/
theorem c3_decode_name_can_diverge (data : List Nat) (offset : Nat) (b second : Nat)
    (hget : data[offset]? = some b) (hb : b &&& 0xC0 = 0xC0)
    (hget2 : data[offset + 1]? = some second)
    (htgt : ((b &&& 0x3F) <<< 8) ||| second = offset) :
    decodeDiverges data offset := by
  intro fuel
  exact decodeNameAux_self_pointer data offset b second hget hb hget2 htgt fuel [] false
    offset

/-- Witness for C3: the self-pointing two-byte buffer `[0xC0, 0x00]`
diverges. -/
theorem c3_decode_name_can_diverge_witness :
    ((192 : Nat) &&& 0xC0 = 0xC0) ∧ decodeDiverges [192, 0] 0 :=
  ⟨by decide, c3_decode_name_can_diverge [192, 0] 0 192 0 rfl (by decide) rfl (by decide)⟩

/-- Counterexample to C3 as frozen: the claim asserts termination on every
input, but on `[0xC0, 0x00]` at offset 0 the loop never finishes under any
iteration bound. -/
theorem c3_termination_counterexample : decodeDiverges [192, 0] 0 := by
  intro fuel
  exact decodeNameAux_self_pointer [192, 0] 0 192 0 rfl (by decide) rfl (by decide) fuel
    [] false 0

/-- C4.  In `decode_name`, a byte with its top two bits set makes decoding
continue from the absolute offset formed by the remaining 14 bits and the next
byte; the first jump fixes the finally returned cursor at 2 past the pointer's
position; any pointer met after an earlier jump leaves the returned cursor
unchanged, while label collection continues from each target. -/
theorem c4_pointer_semantics :
    (∀ (fuel : Nat) (data : List Nat) (offset : Nat) (parts : List (List Nat))
       (jumped : Bool) (jo b second : Nat),
       data[offset]? = some b → b &&& 0xC0 = 0xC0 → data[offset + 1]? = some second →
       decodeNameAux data (fuel + 1) offset parts jumped jo =
         decodeNameAux data fuel (((b &&& 0x3F) <<< 8) ||| second) parts true
           (if jumped then jo else offset + 2)) ∧
    (∀ (fuel : Nat) (data : List Nat) (offset : Nat) (parts : List (List Nat))
       (jo : Nat) (name : List Nat) (fin : Nat),
       decodeNameAux data fuel offset parts true jo = .ok (name, fin) → fin = jo) ∧
    (∀ (fuel : Nat) (data : List Nat) (offset b second : Nat) (name : List Nat)
       (fin : Nat),
       data[offset]? = some b → b &&& 0xC0 = 0xC0 → data[offset + 1]? = some second →
       DnsQuestion.decode_name (fuel + 1) data offset = .ok (name, fin) →
       fin = offset + 2) := by
  refine ⟨decodeNameAux_pointer_step, decodeNameAux_jumped_final, ?_⟩
  intro fuel data offset b second name fin hget hb hget2 h
  unfold DnsQuestion.decode_name at h
  rw [decodeNameAux_pointer_step fuel data offset [] false offset b second hget hb
    hget2] at h
  simp only [Bool.false_eq_true, if_false] at h
  exact decodeNameAux_jumped_final fuel data _ [] (offset + 2) name fin h

/-- Witness for C4: on `[0xC0, 0x02, 0x00]`, the pointer at offset 0 jumps to
offset 2, the empty name is collected there, and the returned cursor is
0 + 2. -/
theorem c4_pointer_semantics_witness :
    DnsQuestion.decode_name 2 [192, 2, 0] 0 = .ok ([], 2) ∧ (2 : Nat) = 0 + 2 :=
  ⟨by decide,
   c4_pointer_semantics.2.2 1 [192, 2, 0] 0 192 2 [] 2 rfl (by decide) rfl (by decide)⟩

/-- C5 (amended).  `from_bytes` is lenient on the answer section only for
records whose fixed fields or data are truncated, or that begin at or past the
end of the buffer: there the loop stops early and the already-parsed answers
are returned in a successful message.  An error while decoding an answer's
*name*, however, is propagated and fails the whole parse — as does any error
in the question section. -/
theorem c5_lenient_answers :
    (∀ (fuel : Nat) (data : List Nat) (hdr : DnsHeader) (e : String),
       ¬data.length < 12 → DnsHeader.from_bytes data = .ok hdr →
       parseQuestionsAux fuel data hdr.qdcount 12 [] = .err e →
       DnsMessage.from_bytes fuel data = .err e) ∧
    (∀ (fuel : Nat) (data : List Nat) (n off : Nat) (acc : List DnsRecord),
       data.length ≤ off → parseAnswersAux fuel data (n + 1) off acc = .ok acc) ∧
    (∀ (fuel : Nat) (data : List Nat) (n off : Nat) (acc : List DnsRecord)
       (nm : List Nat) (off1 : Nat),
       ¬data.length ≤ off → DnsQuestion.decode_name fuel data off = .ok (nm, off1) →
       data.length < off1 + 10 → parseAnswersAux fuel data (n + 1) off acc = .ok acc) ∧
    (∀ (fuel : Nat) (data : List Nat) (n off : Nat) (acc : List DnsRecord)
       (nm : List Nat) (off1 : Nat),
       ¬data.length ≤ off → DnsQuestion.decode_name fuel data off = .ok (nm, off1) →
       ¬data.length < off1 + 10 →
       data.length < off1 + 10 + readU16 data (off1 + 8) →
       parseAnswersAux fuel data (n + 1) off acc = .ok acc) ∧
    (∀ (fuel : Nat) (data : List Nat) (n off : Nat) (acc : List DnsRecord) (e : String),
       ¬data.length ≤ off → DnsQuestion.decode_name fuel data off = .err e →
       parseAnswersAux fuel data (n + 1) off acc = .err e) ∧
    (∀ (fuel : Nat) (data : List Nat) (hdr : DnsHeader) (qs : List DnsQuestion)
       (off : Nat) (e : String),
       ¬data.length < 12 → DnsHeader.from_bytes data = .ok hdr →
       parseQuestionsAux fuel data hdr.qdcount 12 [] = .ok (qs, off) →
       parseAnswersAux fuel data hdr.ancount off [] = .err e →
       DnsMessage.from_bytes fuel data = .err e) ∧
    (∀ (fuel : Nat) (data : List Nat) (hdr : DnsHeader) (qs : List DnsQuestion)
       (off : Nat) (ans : List DnsRecord),
       ¬data.length < 12 → DnsHeader.from_bytes data = .ok hdr →
       parseQuestionsAux fuel data hdr.qdcount 12 [] = .ok (qs, off) →
       parseAnswersAux fuel data hdr.ancount off [] = .ok ans →
       DnsMessage.from_bytes fuel data = .ok ⟨hdr, qs, ans, [], []⟩) :=
  ⟨from_bytes_question_err, parseAnswersAux_break_boundary, parseAnswersAux_break_fixed,
   parseAnswersAux_break_rdata, parseAnswersAux_name_err, from_bytes_answers_err,
   from_bytes_sections_ok⟩

/-- Witness for C5: the boundary break on a one-byte buffer at offset 1
returns the already-collected answers, and the whole-message composition on
`badTypeAnswerData` (whose sections all parse) succeeds. -/
theorem c5_lenient_answers_witness :
    parseAnswersAux 5 [0] 1 1 [] = .ok [] ∧
    DnsMessage.from_bytes 20 badTypeAnswerData =
      .ok ⟨anOneHdr, [], [], [], []⟩ :=
  ⟨c5_lenient_answers.2.1 5 [0] 0 1 [] (by decide),
   c5_lenient_answers.2.2.2.2.2.2 20 badTypeAnswerData anOneHdr [] 12 []
     (by decide) (by decide) (by decide) (by decide)⟩

set_option maxRecDepth 10000 in
/-- Counterexample to C5 as frozen: in `truncNameData` the header and all
`qdcount = 0` questions parse, and the single declared answer is truncated
*inside its name* (`[3, 97]` announces a 3-byte label with 1 byte present).
The claim says parsing stops early and succeeds with the readable answers;
the code instead propagates the name-decoding error and the whole
`from_bytes` call fails. -/
theorem c5_truncated_name_counterexample :
    DnsHeader.from_bytes truncNameData = .ok anOneHdr ∧
    parseQuestionsAux 20 truncNameData anOneHdr.qdcount 12 [] = .ok ([], 12) ∧
    DnsMessage.from_bytes 20 truncNameData = .err "Label tronqué" := by
  refine ⟨by decide, by decide, by decide⟩

/-- C6 (amended).  An unrecognized numeric type or class code is a fatal
unsupported-code error **in the question section**; in the answer section the
record is silently *skipped* instead: the cursor advances past it, nothing is
appended, and no error is raised. -/
theorem c6_unsupported_codes :
    (∀ (fuel : Nat) (data : List Nat) (n off : Nat) (acc : List DnsQuestion)
       (nm : List Nat) (off1 : Nat),
       ¬data.length ≤ off → DnsQuestion.decode_name fuel data off = .ok (nm, off1) →
       ¬data.length < off1 + 4 →
       DnsRecordType.from_u16 (readU16 data off1) = none →
       parseQuestionsAux fuel data (n + 1) off acc = .err "Type de question invalide") ∧
    (∀ (fuel : Nat) (data : List Nat) (n off : Nat) (acc : List DnsQuestion)
       (nm : List Nat) (off1 : Nat) (t : DnsRecordType),
       ¬data.length ≤ off → DnsQuestion.decode_name fuel data off = .ok (nm, off1) →
       ¬data.length < off1 + 4 →
       DnsRecordType.from_u16 (readU16 data off1) = some t →
       DnsClass.from_u16 (readU16 data (off1 + 2)) = none →
       parseQuestionsAux fuel data (n + 1) off acc = .err "Classe de question invalide") ∧
    (∀ (fuel : Nat) (data : List Nat) (n off : Nat) (acc : List DnsRecord)
       (nm : List Nat) (off1 : Nat),
       ¬data.length ≤ off → DnsQuestion.decode_name fuel data off = .ok (nm, off1) →
       ¬data.length < off1 + 10 →
       ¬data.length < off1 + 10 + readU16 data (off1 + 8) →
       (DnsRecordType.from_u16 (readU16 data off1) = none ∨
         DnsClass.from_u16 (readU16 data (off1 + 2)) = none) →
       parseAnswersAux fuel data (n + 1) off acc =
         parseAnswersAux fuel data n (off1 + 10 + readU16 data (off1 + 8)) acc) :=
  ⟨parseQuestionsAux_bad_qtype, parseQuestionsAux_bad_qclass, parseAnswersAux_skip⟩

/-- Witness for C6: a question with type code 3 fails with the
unsupported-code error. -/
theorem c6_unsupported_codes_witness :
    parseQuestionsAux 20 badTypeQuestionData 1 12 [] = .err "Type de question invalide" :=
  c6_unsupported_codes.1 20 badTypeQuestionData 0 12 [] [97] 15 (by decide) (by decide)
    (by decide) (by decide)

set_option maxRecDepth 10000 in
/-- Counterexample to C6 as frozen: `badTypeAnswerData` carries one complete
answer record with type code 3 (outside the enumerated set).  The claim says
parsing must fail with an unsupported-code error; the code instead succeeds
and silently drops the record. -/
theorem c6_answer_code_counterexample :
    DnsRecordType.from_u16 3 = none ∧
    DnsMessage.from_bytes 30 badTypeAnswerData = .ok ⟨anOneHdr, [], [], [], []⟩ := by
  refine ⟨by decide, by decide⟩

set_option maxRecDepth 10000 in
/-- C7 (amended).  The handler builds its response by processing each question
in order from `new_response`: a type-A question whose lowercased name is in
the database appends one A record with ttl 300 and the database's address and
increments `ancount`, leaving `rcode` unchanged; a type-A question that does
not resolve sets `rcode := 3`; any other type sets `rcode := 4`.  Only the
rcode-setting outcomes overwrite `rcode`, so the final `rcode` is that of the
last non-resolving or non-A question.  A single-question type-A query for
`localhost` yields exactly one answer (127.0.0.1, ttl 300), `ancount = 1` and
`rcode = 0`; for an absent name, zero answers and `rcode = 3`. -/
theorem c7_handler_semantics :
    (∀ (db : SimpleDnsDatabase) (query : DnsMessage),
       handle_query db query =
         query.questions.foldl (handleQuestion db) (DnsMessage.new_response query)) ∧
    (∀ (db : SimpleDnsDatabase) (resp : DnsMessage) (q : DnsQuestion) (ip : Ipv4Addr),
       q.qtype = .A → db.lookup q.name = some ip →
       handleQuestion db resp q =
         { resp with
           answers := resp.answers ++ [DnsRecord.new_a_record q.name ip 300],
           header := { resp.header with ancount := resp.header.ancount + 1 } }) ∧
    (∀ (db : SimpleDnsDatabase) (resp : DnsMessage) (q : DnsQuestion),
       q.qtype = .A → db.lookup q.name = none →
       handleQuestion db resp q =
         { resp with header := { resp.header with rcode := 3 } }) ∧
    (∀ (db : SimpleDnsDatabase) (resp : DnsMessage) (q : DnsQuestion),
       q.qtype ≠ .A →
       handleQuestion db resp q =
         { resp with header := { resp.header with rcode := 4 } }) ∧
    (∀ id : Nat,
       (handle_query SimpleDnsDatabase.new
         (DnsMessage.new_query id (strBytes "localhost") .A)).answers =
           [DnsRecord.new_a_record (strBytes "localhost") ⟨127, 0, 0, 1⟩ 300] ∧
       (handle_query SimpleDnsDatabase.new
         (DnsMessage.new_query id (strBytes "localhost") .A)).header.ancount = 1 ∧
       (handle_query SimpleDnsDatabase.new
         (DnsMessage.new_query id (strBytes "localhost") .A)).header.rcode = 0) ∧
    (∀ id : Nat,
       (handle_query SimpleDnsDatabase.new
         (DnsMessage.new_query id (strBytes "doesnotexist.tld") .A)).answers = [] ∧
       (handle_query SimpleDnsDatabase.new
         (DnsMessage.new_query id (strBytes "doesnotexist.tld") .A)).header.rcode = 3) :=
  ⟨fun _ _ => rfl, handleQuestion_A_found, handleQuestion_A_notfound, handleQuestion_other,
   fun _ => ⟨rfl, rfl, rfl⟩, fun _ => ⟨rfl, rfl⟩⟩

set_option maxRecDepth 10000 in
/-- Witness for C7: the resolving and non-resolving per-question steps
evaluated on the seed database. -/
theorem c7_handler_semantics_witness :
    handleQuestion SimpleDnsDatabase.new (DnsMessage.new 0)
        ⟨strBytes "localhost", .A, .IN⟩ =
      { DnsMessage.new 0 with
        answers := [DnsRecord.new_a_record (strBytes "localhost") ⟨127, 0, 0, 1⟩ 300],
        header := { (DnsMessage.new 0).header with ancount := 1 } } ∧
    handleQuestion SimpleDnsDatabase.new (DnsMessage.new 0)
        ⟨strBytes "doesnotexist.tld", .A, .IN⟩ =
      { DnsMessage.new 0 with
        header := { (DnsMessage.new 0).header with rcode := 3 } } :=
  ⟨c7_handler_semantics.2.1 SimpleDnsDatabase.new (DnsMessage.new 0)
     ⟨strBytes "localhost", .A, .IN⟩ ⟨127, 0, 0, 1⟩ rfl (by decide),
   c7_handler_semantics.2.2.1 SimpleDnsDatabase.new (DnsMessage.new 0)
     ⟨strBytes "doesnotexist.tld", .A, .IN⟩ rfl (by decide)⟩

set_option maxRecDepth 10000 in
/-- Counterexample to C7 as frozen: on a query with two type-A questions —
the first absent from the database, the second resolving — the final `rcode`
is 3 even though the last question's outcome was a successful resolution
(whose answer is present).  A successful lookup does not write `rcode`, so it
is not true that "each outcome overwrites the previous rcode" leaving only
the last question's outcome. -/
theorem c7_rcode_counterexample :
    (handle_query SimpleDnsDatabase.new twoQuestionQuery).header.rcode = 3 ∧
    (handle_query SimpleDnsDatabase.new twoQuestionQuery).answers =
      [DnsRecord.new_a_record (strBytes "LOCALHOST") ⟨127, 0, 0, 1⟩ 300] := by
  refine ⟨by decide, by decide⟩

/-- C8.  Encoding a name containing a label longer than 63 bytes is a hard
failure (the source's `panic!`, modelled as `none`): the label is never
silently truncated and no successful encoding is returned. -/
theorem c8_long_label_encode_fails (name : List Nat)
    (h : ∃ p ∈ name.splitOn 46, 63 < p.length) :
    DnsQuestion.encode_name name = none :=
  encodeLabels_long_none (name.splitOn 46) h

/-- Witness for C8: a 64-byte label. -/
theorem c8_long_label_encode_fails_witness :
    (∃ p ∈ (List.replicate 64 97).splitOn 46, 63 < p.length) ∧
    DnsQuestion.encode_name (List.replicate 64 97) = none :=
  ⟨by decide, c8_long_label_encode_fails (List.replicate 64 97) (by decide)⟩

/-- C9 (amended).  The header with `qr = true`, `rd = true`, `rcode = 3` and
every other flag and field zero serializes its two flag bytes (bytes 2 and 3)
to `0x81` and `0x03` — not `0x83`: `rcode` occupies the low nibble of the
second flag byte, whose bit 7 is `ra = 0` — and decoding the serialized
header reproduces exactly `qr = true`, `rd = true`, `rcode = 3` with all
other flag fields zero. -/
theorem c9_flag_bytes :
    hdr9.to_bytes[2]? = some 0x81 ∧ hdr9.to_bytes[3]? = some 0x03 ∧
    DnsHeader.from_bytes hdr9.to_bytes = .ok hdr9 := by
  refine ⟨by decide, by decide, by decide⟩

/-- Counterexample to C9 as frozen: the second flag byte is `0x03`, not the
claimed `0x83` (`0x83` would require `ra = 1`). -/
theorem c9_flag_bytes_counterexample : ¬hdr9.to_bytes[3]? = some 0x83 := by
  decide

/-- C10.  `DnsRecord::get_ip` returns an address exactly when the record's
type is A and its data is exactly 4 bytes, and then the four octets are the
data bytes in order; in every other case it returns `none`. -/
theorem c10_get_ip_characterization (r : DnsRecord) (ip : Ipv4Addr) :
    r.get_ip = some ip ↔ r.rtype = .A ∧ r.data = [ip.a, ip.b, ip.c, ip.d] := by
  constructor
  · intro hsome
    unfold DnsRecord.get_ip at hsome
    by_cases h : r.rtype = .A ∧ r.data.length = 4
    · rw [if_pos h] at hsome
      obtain ⟨h1, h2⟩ := h
      obtain ⟨a, b, c, d, hdata⟩ : ∃ a b c d, r.data = [a, b, c, d] := by
        rcases hd : r.data with _ | ⟨a, _ | ⟨b, _ | ⟨c, _ | ⟨d, _ | ⟨e, t⟩⟩⟩⟩⟩ <;>
          rw [hd] at h2 <;> simp at h2
        exact ⟨a, b, c, d, rfl⟩
      rw [hdata] at hsome
      simp only [List.getD_cons_zero, List.getD_cons_succ] at hsome
      obtain rfl := Option.some.inj hsome
      exact ⟨h1, by rw [hdata]⟩
    · rw [if_neg h] at hsome
      exact absurd hsome (by simp)
  · intro ⟨h1, h2⟩
    unfold DnsRecord.get_ip
    rw [if_pos ⟨h1, by rw [h2]; rfl⟩]
    rw [h2]
    rfl
